import Mathlib

/-!
# Verification of the random-video-chat signaling server (`server/server.js`)

A shallow embedding of the Socket.IO signaling server: the Redis-backed
FIFO waiting queue, the `pairs` hash, the per-socket rate-limit map, the
report log, the ban set, and the socket registry, together with the
`join` / `next` / `leave` / `signal` / `report` / `disconnect` handlers.

Machine model: each inbound event is processed sequentially to completion
(one event in flight per connection, the only ordering guarantee the code
relies on).  Redis operations are modelled as pure operations on the state;
a second, fault-oracle layer (`FM`) models executions in which an awaited
store operation rejects, to reason about the top-level `catch` blocks.
-/

namespace RVChat

/-- JavaScript values, as far as the handlers inspect them
(`typeof` checks, truthiness, field access, `JSON.stringify`). -/
inductive JSVal where
  | undefined : JSVal
  | jsnull : JSVal
  | str : String → JSVal
  | num : Int → JSVal
  | boolean : Bool → JSVal
  | obj : List (String × JSVal) → JSVal

/-- JavaScript truthiness (`if (v)`), for the values the handlers test. -/
def truthyV : JSVal → Bool
  | .undefined => false
  | .jsnull => false
  | .str s => s ≠ ""
  | .num n => n ≠ 0
  | .boolean b => b
  | .obj _ => true

/-- `typeof v === "string"`. -/
def isStrV : JSVal → Bool
  | .str _ => true
  | _ => false

/-- `typeof v === "object"` (true for `null` as well, as in JavaScript). -/
def isObjTypeV : JSVal → Bool
  | .jsnull => true
  | .obj _ => true
  | _ => false

/-- String content of a `str` value (only used after an `isStrV` check). -/
def asStr : JSVal → String
  | .str s => s
  | _ => ""

/-- Property access `v.k` on an object: first binding wins, `undefined`
when absent (JS object literals in this code never repeat keys). -/
def getField (v : JSVal) (k : String) : JSVal :=
  match v with
  | .obj fields => (((fields.find? (fun p => p.1 == k)).map Prod.snd).getD .undefined)
  | _ => .undefined

/-- Escape of one character inside a JSON string literal
(the handlers only measure lengths; control characters are not refined). -/
def escChar (c : Char) : String :=
  if c = '"' ∨ c = '\\' then "\\".push c else String.singleton c

/-- Body of a JSON string literal. -/
def escape (s : String) : String :=
  String.join (s.toList.map escChar)

mutual
/-- `JSON.stringify`, restricted to the value forms of the model:
`undefined` fields are omitted, strings are quoted and escaped. -/
def stringify : JSVal → String
  | .undefined => "null"
  | .jsnull => "null"
  | .str s => "\"" ++ escape s ++ "\""
  | .num n => toString n
  | .boolean b => if b then "true" else "false"
  | .obj fields => "\x7b" ++ String.intercalate "," (stringifyFields fields) ++ "\x7d"

/-- Serialized `"key":value` members of an object, skipping `undefined`. -/
def stringifyFields : List (String × JSVal) → List String
  | [] => []
  | (k, v) :: rest =>
      match v with
      | .undefined => stringifyFields rest
      | w => ("\"" ++ escape k ++ "\":" ++ stringify w) :: stringifyFields rest
end

/-- An outbound Socket.IO emission `io.to(target).emit(event, payload)`. -/
structure Msg where
  target : String
  event : String
  payload : Option JSVal

/-- The server state visible to the handlers: the Redis queue list, the
`pairs` hash, per-IP report lists (serialized records), the banned-IP set,
ban details, the in-process `nextRateLimits` map, and the socket registry
(socket id ↦ remote IP; `io.in(id).fetchSockets()` is non-empty iff the id
is a key here). -/
structure ServerState where
  queue : List String
  pairs : List (String × String)
  reports : List (String × List String)
  bannedIPs : List String
  banDetails : List (String × (String × Nat))
  nextRateLimits : List (String × Nat)
  registry : List (String × String)
deriving DecidableEq, Repr

/-- The empty system: nothing queued, paired, reported, banned or connected. -/
def initState : ServerState := ⟨[], [], [], [], [], [], []⟩

/-- Redis `HGET`: first binding of the key in the association list. -/
def hget (h : List (String × String)) (k : String) : Option String :=
  (h.find? (fun p => p.1 == k)).map Prod.snd

/-- Redis `HSET` of a single field: drop old bindings, append the new one. -/
def hset1 (h : List (String × String)) (k v : String) : List (String × String) :=
  h.filter (fun p => p.1 != k) ++ [(k, v)]

/-- Redis `HDEL` of a single field. -/
def hdel (h : List (String × String)) (k : String) : List (String × String) :=
  h.filter (fun p => p.1 != k)

/-- `io.in(id).fetchSockets()` is non-empty: the socket id is registered. -/
def regHas (reg : List (String × String)) (id : String) : Bool :=
  (reg.find? (fun p => p.1 == id)).isSome

/-- Remote IP of a registered socket (`fetchSockets()[0].ip`). -/
def regIP (reg : List (String × String)) (id : String) : Option String :=
  (reg.find? (fun p => p.1 == id)).map Prod.snd

/-- Truthiness of a nullable JS string (`null`, `undefined` and `""` are falsy). -/
def truthyS : Option String → Bool
  | none => false
  | some s => s ≠ ""

/-- Underlying string of a nullable JS string. -/
def getS : Option String → String
  | none => ""
  | some s => s

/-- `io.to(id).emit("waiting")`. -/
def waitingMsg (id : String) : Msg := ⟨id, "waiting", none⟩

/-- `io.to(dst).emit("paired", { peerId, initiator })` — NB the source keys
the partner id as `peerId`. -/
def pairedMsg (dst peer : String) (initiator : Bool) : Msg :=
  ⟨dst, "paired", some (.obj [("peerId", .str peer), ("initiator", .boolean initiator)])⟩

/-- `io.to(id).emit("partner-disconnected")`. -/
def pdiscMsg (id : String) : Msg := ⟨id, "partner-disconnected", none⟩

/-- `socket.emit("error", { message })`. -/
def errMsg (id msg : String) : Msg :=
  ⟨id, "error", some (.obj [("message", .str msg)])⟩

/-- `enqueue(id)`: best-effort de-dup (`lRem` of every occurrence), push to
the tail (`rPush`), then emit `waiting` to the enqueued id.  No-op on a
falsy id. -/
def enqueue (st : ServerState) (id : String) : ServerState × List Msg :=
  if id = "" then (st, [])
  else ({st with queue := st.queue.filter (fun x => x != id) ++ [id]}, [waitingMsg id])

/-- `removeFromQueue(id)`: `lRem` of every occurrence. -/
def removeFromQueue (st : ServerState) (id : String) : ServerState :=
  {st with queue := st.queue.filter (fun x => x != id)}

/-- The `while (attempts < MAX_ATTEMPTS)` loop of `popValidWaiting`,
with the remaining attempt budget as fuel.  Each iteration `lPop`s the
head; a null pop ends the search, the caller's own id is skipped, an id
with no registered socket is discarded, and a registered id is returned.
Returns the result together with the queue left in the store. -/
def popValidAux (reg : List (String × String)) (ex : String) :
    Nat → List String → Option String × List String
  | 0, q => (none, q)
  | _ + 1, [] => (none, [])
  | n + 1, i :: q =>
      if i = "" then (none, q)
      else if ex ≠ "" ∧ i = ex then popValidAux reg ex n q
      else if regHas reg i then (some i, q)
      else popValidAux reg ex n q

/-- `popValidWaiting(excludeId)` with its `MAX_ATTEMPTS = 50` bound. -/
def popValidWaiting (st : ServerState) (ex : String) : Option String × List String :=
  popValidAux st.registry ex 50 st.queue

/-- `setPaired(a, b)`: one `hSet` writing both directions; no-op when
either id is falsy. -/
def setPaired (st : ServerState) (a b : String) : ServerState :=
  if a = "" ∨ b = "" then st
  else {st with pairs := hset1 (hset1 st.pairs a b) b a}

/-- `getPartner(id)`: `hGet` on the pairs hash, null on a falsy id. -/
def getPartner (st : ServerState) (id : String) : Option String :=
  if id = "" then none else hget st.pairs id

/-- `clearPair(a, b)`: resolve a missing side through `getPartner`, then
delete whichever fields are present, returning the dissolved sides. -/
def clearPair (st : ServerState) (a0 b0 : Option String) :
    ServerState × Option String × Option String :=
  if ¬ truthyS a0 ∧ ¬ truthyS b0 then (st, a0, b0)
  else
    let b1 := if truthyS a0 ∧ ¬ truthyS b0 then getPartner st (getS a0) else b0
    let a1 := if truthyS b1 ∧ ¬ truthyS a0 then getPartner st (getS b1) else a0
    let st1 := if truthyS a1 then {st with pairs := hdel st.pairs (getS a1)} else st
    let st2 := if truthyS b1 then {st1 with pairs := hdel st1.pairs (getS b1)} else st1
    (st2, a1, b1)

/-- `tryMatchNow(callerId, initiatorIsCaller)`: drop the caller's stale
queue entries, destructively pop a valid waiting partner; on success write
the pair and emit `paired` to both sides (the caller as initiator), else
enqueue the caller (which emits `waiting`). -/
def tryMatchNow (st : ServerState) (callerId : String) (initiatorIsCaller : Bool) :
    ServerState × List Msg × Bool :=
  let st1 := removeFromQueue st callerId
  match popValidAux st1.registry callerId 50 st1.queue with
  | (some candidate, q') =>
      let st2 := setPaired {st1 with queue := q'} callerId candidate
      (st2, [pairedMsg callerId candidate initiatorIsCaller,
             pairedMsg candidate callerId (!initiatorIsCaller)], true)
  | (none, q') =>
      let e := enqueue {st1 with queue := q'} callerId
      (e.1, e.2, false)

/-- The `join` handler: ignore when already paired, else `tryMatchNow`
with the caller as initiator. -/
def joinH (st : ServerState) (id : String) : ServerState × List Msg :=
  if truthyS (getPartner st id) then (st, [])
  else
    let r := tryMatchNow st id true
    (r.1, r.2.1)

/-- `NEXT_COOLDOWN_MS`. -/
def NEXT_COOLDOWN_MS : Nat := 1000

/-- `nextRateLimits.get(id) || 0`. -/
def lastNextOf (st : ServerState) (id : String) : Nat :=
  ((st.nextRateLimits.find? (fun p => p.1 == id)).map Prod.snd).getD 0

/-- `nextRateLimits.set(id, now)`. -/
def setRateLimit (st : ServerState) (id : String) (now : Nat) : ServerState :=
  {st with nextRateLimits := st.nextRateLimits.filter (fun p => p.1 != id) ++ [(id, now)]}

/-- The `next` handler.  Under cooldown: emit the cooldown `error` and stop.
Otherwise record `now`; if paired, dissolve the pair, notify both sides,
requeue a still-connected partner, then `tryMatchNow` for the caller; if
unpaired, drop stale queue entries and `tryMatchNow` (re-enqueueing at the
tail when nobody is available). -/
def nextH (st : ServerState) (id : String) (now : Nat) : ServerState × List Msg :=
  if now - lastNextOf st id < NEXT_COOLDOWN_MS then
    (st, [errMsg id "Please wait before clicking next again"])
  else
    let st0 := setRateLimit st id now
    let pOpt := getPartner st0 id
    if truthyS pOpt then
      let c := clearPair st0 (some id) pOpt
      let ms1 := if truthyS c.2.1 && truthyS c.2.2 then
        [pdiscMsg (getS c.2.1), pdiscMsg (getS c.2.2)] else []
      let e := if regHas c.1.registry (getS pOpt) then enqueue c.1 (getS pOpt) else (c.1, [])
      let r := tryMatchNow e.1 id true
      (r.1, ms1 ++ e.2 ++ r.2.1)
    else
      let st1 := removeFromQueue st0 id
      let r := tryMatchNow st1 id true
      (r.1, r.2.1)

/-- The `leave` handler: dissolve a pair and notify both sides, requeue a
still-connected partner, drop the caller's queue entries, ack with `left`. -/
def leaveH (st : ServerState) (id : String) : ServerState × List Msg :=
  let pOpt := getPartner st id
  let A :=
    if truthyS pOpt then
      let c := clearPair st (some id) pOpt
      let ms1 := if truthyS c.2.1 && truthyS c.2.2 then
        [pdiscMsg (getS c.2.1), pdiscMsg (getS c.2.2)] else []
      let e := if regHas c.1.registry (getS pOpt) then enqueue c.1 (getS pOpt) else (c.1, [])
      (e.1, ms1 ++ e.2)
    else (st, ([] : List Msg))
  (removeFromQueue A.1 id, A.2 ++ [⟨id, "left", none⟩])

/-- The `disconnect` handler: dissolve a pair, notify only the survivor,
requeue a still-connected partner and optimistically `tryMatchNow` for
them, drop the caller's queue entries, forget its rate-limit entry. -/
def disconnectH (st : ServerState) (id : String) : ServerState × List Msg :=
  let pOpt := getPartner st id
  let A :=
    if truthyS pOpt then
      let c := clearPair st (some id) pOpt
      let ms1 := if truthyS c.2.1 && truthyS c.2.2 then [pdiscMsg (getS c.2.2)] else []
      if regHas c.1.registry (getS pOpt) then
        let e := enqueue c.1 (getS pOpt)
        let r := tryMatchNow e.1 (getS pOpt) false
        (r.1, ms1 ++ e.2 ++ r.2.1)
      else (c.1, ms1)
    else (st, ([] : List Msg))
  let stB := removeFromQueue A.1 id
  ({stB with nextRateLimits := stB.nextRateLimits.filter (fun p => p.1 != id)}, A.2)

/-- The `signal` handler.  Outer-shape validation (`data` a truthy object,
`peerId` a non-empty string, `signal` a non-null object, serialized size
at most 50000), then the spoof/stale check `partner === peerId`; on success
relay `{ peerId: sender, signal }` to the peer.  The handler never writes
any stored state; its only effect is the returned delivery list. -/
def signalH (st : ServerState) (id : String) (data : JSVal) : List Msg :=
  if ¬ (truthyV data ∧ isObjTypeV data) then []
  else
    let peerIdV := getField data "peerId"
    let signalV := getField data "signal"
    if ¬ (truthyV peerIdV ∧ isStrV peerIdV) then []
    else if ¬ (truthyV signalV ∧ isObjTypeV signalV) then []
    else if 50000 < (stringify signalV).length then []
    else
      let peerId := asStr peerIdV
      match getPartner st id with
      | some p =>
          if p = peerId then
            [⟨peerId, "signal", some (.obj [("peerId", .str id), ("signal", signalV)])⟩]
          else []
      | none => []

/-- `banIP(ip, reason)`: add to the banned set, record details, then emit
`banned` to every socket whose remote IP matches and force-close it. -/
def banIP (st : ServerState) (ip reason : String) (now : Nat) : ServerState × List Msg :=
  if ip = "" then (st, [])
  else
    let banned' := if st.bannedIPs.contains ip then st.bannedIPs else st.bannedIPs ++ [ip]
    let details' := st.banDetails.filter (fun p => p.1 != ip) ++ [(ip, (reason, now))]
    let victims := st.registry.filter (fun p => p.2 == ip)
    ({st with
        bannedIPs := banned'
        banDetails := details'
        registry := st.registry.filter (fun p => p.2 != ip)},
     victims.map (fun p => ⟨p.1, "banned", some (.obj [("reason", .str reason)])⟩))

/-- Report list currently stored for an IP (`lRange`/`lLen` view). -/
def reportsOf (st : ServerState) (ip : String) : List String :=
  ((st.reports.find? (fun p => p.1 == ip)).map Prod.snd).getD []

/-- Replace the report list stored for an IP. -/
def setReports (st : ServerState) (ip : String) (l : List String) : ServerState :=
  {st with reports := st.reports.filter (fun p => p.1 != ip) ++ [(ip, l)]}

/-- The serialized report record `rPush`ed by the `report` handler. -/
def mkReport (peerId peerIP reporter reporterIP reason : String) (now : Nat) : String :=
  stringify (.obj [("reportedSocketId", .str peerId), ("reportedIP", .str peerIP),
    ("reportedBy", .str reporter), ("reporterIP", .str reporterIP),
    ("reason", .str reason), ("timestamp", .num now)])

/-- `AUTO_BAN_THRESHOLD`. -/
def AUTO_BAN_THRESHOLD : Nat := 5

/-- The `report` handler: validate `peerId` (truthy string) and `reason`
(truthy string of length ≤ 500); require `partner === peerId`; silently
stop when the reported peer has no registered socket; otherwise append the
record to the peer IP's report list (24 h TTL not modelled — no clock
passes in the sequential model), auto-ban the IP once the list holds at
least `AUTO_BAN_THRESHOLD` records, and ack with `report-submitted`. -/
def reportH (st : ServerState) (id : String) (peerIdV reasonV : JSVal) (now : Nat) :
    ServerState × List Msg :=
  if ¬ (truthyV peerIdV ∧ isStrV peerIdV) then (st, [errMsg id "Invalid report"])
  else if ¬ (truthyV reasonV ∧ isStrV reasonV ∧ (asStr reasonV).length ≤ 500) then
    (st, [errMsg id "Invalid report reason"])
  else
    let peerId := asStr peerIdV
    let pOpt := getPartner st id
    if pOpt ≠ some peerId then (st, [errMsg id "Can only report current partner"])
    else
      match regIP st.registry peerId with
      | none => (st, [])
      | some peerIP =>
          let selfIP := getS (regIP st.registry id)
          let rec1 := mkReport peerId peerIP id selfIP (asStr reasonV) now
          let newList := reportsOf st peerIP ++ [rec1]
          let st1 := setReports st peerIP newList
          let n := newList.length
          let B :=
            if AUTO_BAN_THRESHOLD ≤ n then
              banIP st1 peerIP ("auto-ban: " ++ toString n ++ " reports in 24h") now
            else (st1, ([] : List Msg))
          (B.1, B.2 ++ [⟨id, "report-submitted", some (.obj [("success", .boolean true)])⟩])

/-- Admission of a fresh socket: the ban middleware rejects a banned IP,
otherwise the socket (with its remote IP) is added to the local registry. -/
def connectStep (st : ServerState) (id ip : String) : ServerState :=
  {st with registry := st.registry ++ [(id, ip)]}

/-- Removal of a closed socket from the registry (a disconnecting socket
has left all its rooms before its `disconnect` listener runs). -/
def unregister (st : ServerState) (id : String) : ServerState :=
  {st with registry := st.registry.filter (fun p => p.1 != id)}

/-! ## The matchmaker invariant -/
/-- Invariant of the shared state maintained by every handler:
the pairs hash is symmetric, holds no empty ids, no queued id is paired,
the queue holds no duplicates, and registered socket ids are non-empty. -/
structure Inv (st : ServerState) : Prop where
  symm : ∀ a b, hget st.pairs a = some b → hget st.pairs b = some a
  keyNe : ∀ a b, hget st.pairs a = some b → a ≠ "" ∧ b ≠ ""
  excl : ∀ a, a ∈ st.queue → hget st.pairs a = none
  nodup : st.queue.Nodup
  regNe : ∀ p ∈ st.registry, p.1 ≠ ""

/-! ## Reachable states -/
/-- States reachable from the empty system: socket admissions (fresh,
non-empty ids, un-banned IPs) and the four state-changing client events,
each processed sequentially to completion, each fired by a currently
registered socket; a disconnecting socket leaves the registry before its
`disconnect` handler runs. -/
inductive Reachable : ServerState → Prop where
  | init : Reachable initState
  | connect (st : ServerState) (id ip : String) : Reachable st → id ≠ "" →
      regHas st.registry id = false → st.bannedIPs.contains ip = false →
      Reachable (connectStep st id ip)
  | join (st : ServerState) (id : String) : Reachable st →
      regHas st.registry id = true → Reachable (joinH st id).1
  | next (st : ServerState) (id : String) (now : Nat) : Reachable st →
      regHas st.registry id = true → Reachable (nextH st id now).1
  | leave (st : ServerState) (id : String) : Reachable st →
      regHas st.registry id = true → Reachable (leaveH st id).1
  | disconnect (st : ServerState) (id : String) : Reachable st →
      regHas st.registry id = true → Reachable (disconnectH (unregister st id) id).1

/-- Fixture: sockets `A` and `B` connected to an empty system. -/
def stW1 : ServerState := connectStep (connectStep initState "A" "ipA") "B" "ipB"

/-- Fixture: `A` has joined and waits. -/
def stW2 : ServerState := (joinH stW1 "A").1

/-- Fixture: `B` has joined and got paired with `A`. -/
def stW3 : ServerState := (joinH stW2 "B").1

/-- Fixture: socket `A` whose last `next` was recorded at t = 100 ms. -/
def stRL : ServerState := ⟨[], [], [], [], [], [("A", 100)], [("A", "ipA")]⟩

/-- Fixture: the paired two-client state after socket `A` has closed
(left the registry) but before its cleanup ran. -/
def stW4 : ServerState := unregister stW3 "A"

/-- Fixture: `A`–`B` paired, and `B`'s IP already carries three reports. -/
def stR3 : ServerState :=
  ⟨[], [("A", "B"), ("B", "A")], [("ipB", ["r1", "r2", "r3"])], [], [], [],
   [("A", "ipA"), ("B", "ipB")]⟩

/-- Fixture: as `stR3` but with four stored reports. -/
def stR4 : ServerState :=
  ⟨[], [("A", "B"), ("B", "A")], [("ipB", ["r1", "r2", "r3", "r4"])], [], [], [],
   [("A", "ipA"), ("B", "ipB")]⟩

/-! ## Fault-aware layer: executions in which awaited store operations
can reject, to reason about the handlers' top-level `catch` blocks. -/
/-- Execution state of a fault-aware run: server state, events emitted so
far, and the fault oracle — one Boolean per awaited store operation
(`true` = this operation rejects; an exhausted oracle means no further
faults). -/
structure FS where
  st : ServerState
  out : List Msg
  faults : List Bool

/-- The fault monad: `none` propagates a thrown store error to the
nearest enclosing `catch`. -/
def FM (α : Type) : Type := FS → Option α × FS

instance : Monad FM where
  pure a := fun s => (some a, s)
  bind x f := fun s =>
    match x s with
    | (some a, s1) => f a s1
    | (none, s1) => (none, s1)

/-- An awaited store round-trip: consumes one fault-oracle entry and
either performs the pure effect or throws. -/
def sss {α : Type} (f : ServerState → ServerState × α) : FM α := fun s =>
  match s.faults with
  | [] => (some (f s.st).2, ⟨(f s.st).1, s.out, []⟩)
  | b :: rest =>
      if b then (none, ⟨s.st, s.out, rest⟩)
      else (some (f s.st).2, ⟨(f s.st).1, s.out, rest⟩)

/-- A synchronous in-process effect (the rate-limit `Map`, local caches):
cannot throw, consumes no fault entry. -/
def localOp {α : Type} (f : ServerState → ServerState × α) : FM α := fun s =>
  (some (f s.st).2, ⟨(f s.st).1, s.out, s.faults⟩)

/-- `io.to(...).emit(...)` / `socket.emit(...)`: fire-and-forget. -/
def emitF (m : Msg) : FM Unit := fun s => (some (), ⟨s.st, s.out ++ [m], s.faults⟩)

/-- An inner `try { ... } catch (err) { console.error(...) }`: the error
is swallowed. -/
def fmCatch (x : FM Unit) : FM Unit := fun s =>
  match x s with
  | (none, s1) => (some (), s1)
  | r => r

/-- `lPop` on the queue list. -/
def lPopOp (st : ServerState) : ServerState × Option String :=
  match st.queue with
  | [] => (st, none)
  | x :: q => ({st with queue := q}, some x)

/-- `removeFromQueue` (fault-aware): the `lRem` is wrapped in its own
`try`/`catch`, so it never throws to the caller. -/
def removeFromQueueF (id : String) : FM Unit :=
  fmCatch (do
    let _ ← sss (fun st => (removeFromQueue st id, ()))
    pure ())

/-- `enqueue` (fault-aware): guard, then `lRem` + `rPush` + `waiting`
inside the function's own `try`/`catch`. -/
def enqueueF (id : String) : FM Unit :=
  if id = "" then pure ()
  else
    fmCatch (do
      let _ ← sss (fun st => (removeFromQueue st id, ()))
      let _ ← sss (fun st => ({st with queue := st.queue ++ [id]}, ()))
      emitF (waitingMsg id))

/-- `getPartner` (fault-aware): `hGet`, which may throw. -/
def getPartnerF (id : String) : FM (Option String) :=
  if id = "" then pure none
  else sss (fun st => (st, hget st.pairs id))

/-- `setPaired` (fault-aware). -/
def setPairedF (a b : String) : FM Unit :=
  if a = "" ∨ b = "" then pure ()
  else sss (fun st => ({st with pairs := hset1 (hset1 st.pairs a b) b a}, ()))

/-- `clearPair` (fault-aware; the two `hDel`s of the `Promise.all` are
sequenced). -/
def clearPairF (a0 b0 : Option String) : FM (Option String × Option String) :=
  if ¬ truthyS a0 ∧ ¬ truthyS b0 then pure (a0, b0)
  else
    (if truthyS a0 ∧ ¬ truthyS b0 then getPartnerF (getS a0) else pure b0) >>= fun b1 =>
    (if truthyS b1 ∧ ¬ truthyS a0 then getPartnerF (getS b1) else pure a0) >>= fun a1 =>
    (if truthyS a1 then sss (fun st => ({st with pairs := hdel st.pairs (getS a1)}, ()))
      else pure ()) >>= fun _ =>
    (if truthyS b1 then sss (fun st => ({st with pairs := hdel st.pairs (getS b1)}, ()))
      else pure ()) >>= fun _ =>
    pure (a1, b1)

/-- `notifyPartnerDisconnected` (fault-aware, guard included). -/
def notifyPdF (idO : Option String) : FM Unit :=
  if truthyS idO then emitF (pdiscMsg (getS idO)) else pure ()

/-- The pop loop of `popValidWaiting` (fault-aware): `lPop` and
`fetchSockets` are awaited and may throw. -/
def popValidF (ex : String) : Nat → FM (Option String)
  | 0 => pure none
  | n + 1 => do
      let idO ← sss lPopOp
      match idO with
      | none => pure none
      | some i =>
          if i = "" then pure none
          else if ex ≠ "" ∧ i = ex then popValidF ex n
          else do
            let c ← sss (fun st => (st, regHas st.registry i))
            if c then pure (some i) else popValidF ex n

/-- `tryMatchNow` (fault-aware). -/
def tryMatchNowF (callerId : String) (initiatorIsCaller : Bool) : FM Bool := do
  let _ ← removeFromQueueF callerId
  let cand ← popValidF callerId 50
  match cand with
  | some candidate => do
      let _ ← setPairedF callerId candidate
      let _ ← emitF (pairedMsg callerId candidate initiatorIsCaller)
      let _ ← emitF (pairedMsg candidate callerId (!initiatorIsCaller))
      pure true
  | none => do
      let _ ← enqueueF callerId
      pure false

/-- The body of the `join` handler (inside its top-level `try`). -/
def joinF (id : String) : FM Unit := do
  let current ← getPartnerF id
  if truthyS current then pure ()
  else do
    let _ ← tryMatchNowF id true
    pure ()

/-- The body of the `next` handler (inside its top-level `try`). -/
def nextF (id : String) (now : Nat) : FM Unit := do
  let last ← localOp (fun st => (st, lastNextOf st id))
  if now - last < NEXT_COOLDOWN_MS then
    emitF (errMsg id "Please wait before clicking next again")
  else do
    let _ ← localOp (fun st => (setRateLimit st id now, ()))
    let partnerId ← getPartnerF id
    if truthyS partnerId then do
      let ab ← clearPairF (some id) partnerId
      let _ ← if truthyS ab.1 ∧ truthyS ab.2 then do
          let _ ← notifyPdF ab.1
          notifyPdF ab.2
        else pure ()
      let pres ← sss (fun st => (st, regHas st.registry (getS partnerId)))
      let _ ← if pres then enqueueF (getS partnerId) else pure ()
      let _ ← tryMatchNowF id true
      pure ()
    else do
      let _ ← removeFromQueueF id
      let _ ← tryMatchNowF id true
      pure ()

/-- The body of the `leave` handler (inside its top-level `try`); its
final step acks with `left`. -/
def leaveF (id : String) : FM Unit :=
  getPartnerF id >>= fun partnerId =>
  (if truthyS partnerId then
      clearPairF (some id) partnerId >>= fun ab =>
      (if truthyS ab.1 ∧ truthyS ab.2 then
          notifyPdF ab.1 >>= fun _ => notifyPdF ab.2
        else pure ()) >>= fun _ =>
      sss (fun st => (st, regHas st.registry (getS partnerId))) >>= fun pres =>
      (if pres then enqueueF (getS partnerId) else pure ())
    else pure ()) >>= fun _ =>
  removeFromQueueF id >>= fun _ =>
  emitF ⟨id, "left", none⟩

/-- Emit a list of messages in order (the `sockets.forEach` loop). -/
def emitAllF : List Msg → FM Unit
  | [] => pure ()
  | m :: rest => do
      let _ ← emitF m
      emitAllF rest

/-- `banIP` (fault-aware): local cache add, `sAdd`, details `hSet`,
`fetchSockets`, then notify and force-close every socket on the IP. -/
def banIPF (ip reason : String) (now : Nat) : FM Unit :=
  if ip = "" then pure ()
  else do
    let _ ← localOp (fun st =>
      ({st with bannedIPs := if st.bannedIPs.contains ip then st.bannedIPs
          else st.bannedIPs ++ [ip]}, ()))
    let _ ← sss (fun st => (st, ()))
    let _ ← sss (fun st =>
      ({st with banDetails := st.banDetails.filter (fun pr => pr.1 != ip) ++
          [(ip, (reason, now))]}, ()))
    let victims ← sss (fun st => (st, st.registry.filter (fun pr => pr.2 == ip)))
    let _ ← emitAllF (victims.map
      (fun pr => ⟨pr.1, "banned", some (.obj [("reason", .str reason)])⟩))
    localOp (fun st => ({st with registry := st.registry.filter (fun pr => pr.2 != ip)}, ()))

/-- The body of the `report` handler (inside its top-level `try`):
validations, partner check, peer-IP lookup, `rPush` + `expire` + `lLen`,
threshold ban, ack. -/
def reportF (id : String) (peerIdV reasonV : JSVal) (now : Nat) : FM Unit := do
  if ¬ (truthyV peerIdV ∧ isStrV peerIdV) then emitF (errMsg id "Invalid report")
  else if ¬ (truthyV reasonV ∧ isStrV reasonV ∧ (asStr reasonV).length ≤ 500) then
    emitF (errMsg id "Invalid report reason")
  else do
    let partner ← getPartnerF id
    if partner ≠ some (asStr peerIdV) then emitF (errMsg id "Can only report current partner")
    else do
      let ipO ← sss (fun st => (st, regIP st.registry (asStr peerIdV)))
      match ipO with
      | none => pure ()
      | some peerIP => do
          let selfIP ← localOp (fun st => (st, getS (regIP st.registry id)))
          let _ ← sss (fun st => (setReports st peerIP (reportsOf st peerIP ++
            [mkReport (asStr peerIdV) peerIP id selfIP (asStr reasonV) now]), ()))
          let _ ← sss (fun st => (st, ()))
          let n ← sss (fun st => (st, (reportsOf st peerIP).length))
          let _ ← if AUTO_BAN_THRESHOLD ≤ n then
              banIPF peerIP ("auto-ban: " ++ toString n ++ " reports in 24h") now
            else pure ()
          emitF ⟨id, "report-submitted", some (.obj [("success", .boolean true)])⟩

/-- The `join` handler with its top-level `catch`: on a thrown store
error, `error{"Failed to join queue"}` is emitted to the caller. -/
def runJoin (st : ServerState) (faults : List Bool) (id : String) : ServerState × List Msg :=
  match joinF id ⟨st, [], faults⟩ with
  | (some _, s) => (s.st, s.out)
  | (none, s) => (s.st, s.out ++ [errMsg id "Failed to join queue"])

/-- The `next` handler with its top-level `catch`. -/
def runNext (st : ServerState) (faults : List Bool) (id : String) (now : Nat) :
    ServerState × List Msg :=
  match nextF id now ⟨st, [], faults⟩ with
  | (some _, s) => (s.st, s.out)
  | (none, s) => (s.st, s.out ++ [errMsg id "Failed to go next"])

/-- The `report` handler with its top-level `catch`. -/
def runReport (st : ServerState) (faults : List Bool) (id : String)
    (peerIdV reasonV : JSVal) (now : Nat) : ServerState × List Msg :=
  match reportF id peerIdV reasonV now ⟨st, [], faults⟩ with
  | (some _, s) => (s.st, s.out)
  | (none, s) => (s.st, s.out ++ [errMsg id "Failed to submit report"])

/-- The `leave` handler with its top-level `catch` — which only logs:
no event is emitted on failure. -/
def runLeave (st : ServerState) (faults : List Bool) (id : String) : ServerState × List Msg :=
  match leaveF id ⟨st, [], faults⟩ with
  | (some _, s) => (s.st, s.out)
  | (none, s) => (s.st, s.out)

/-! ## C4 — surfacing of store failures -/
/-- Every message a computation appends to its output satisfies `P`. -/
def OutsOK (P : Msg → Prop) {α : Type} (x : FM α) : Prop :=
  ∀ s m, m ∈ ((x s).2).out → m ∈ s.out ∨ P m

/-- On an aborted run, every message the computation appended satisfies
`P`. -/
def AbortOuts (P : Msg → Prop) {α : Type} (x : FM α) : Prop :=
  ∀ s, (x s).1 = none → ∀ m, m ∈ ((x s).2).out → m ∈ s.out ∨ P m

/-- The only events a `leave` can have emitted at the point an awaited
store operation throws are `partner-disconnected` and `waiting`. -/
def PdW (m : Msg) : Prop := m.event = "partner-disconnected" ∨ m.event = "waiting"

/-! ## Association-list (Redis hash) lemmas -/
theorem find?_filter_of_imp {α : Type} (l : List α) (p q : α → Bool)
    (h : ∀ x, q x = true → p x = true) : (l.filter p).find? q = l.find? q := by
  induction l with
  | nil => rfl
  | cons a t ih =>
      by_cases hq : q a = true
      · have hp := h a hq
        simp [List.filter_cons, hp, List.find?_cons, hq]
      · by_cases hp : p a = true <;>
          simp [List.filter_cons, hp, List.find?_cons, hq, ih]

theorem hget_hset1_self (h : List (String × String)) (k v : String) :
    hget (hset1 h k v) k = some v := by
  have h1 : (h.filter (fun p => p.1 != k)).find? (fun p => p.1 == k) = none := by
    rw [List.find?_eq_none]
    intro x hx
    have h2 := (List.mem_filter.mp hx).2
    simp only [bne_iff_ne, ne_eq, decide_eq_true_eq] at h2
    simp [h2]
  simp [hget, hset1, List.find?_append, h1]

theorem hget_hset1_ne (h : List (String × String)) (k v k' : String) (hk : k' ≠ k) :
    hget (hset1 h k v) k' = hget h k' := by
  have h1 : (h.filter (fun p => p.1 != k)).find? (fun p => p.1 == k') =
      h.find? (fun p => p.1 == k') := by
    apply find?_filter_of_imp
    intro x hx
    have hx' : x.1 = k' := by simpa using hx
    simp [hx', hk]
  have hk2 : k ≠ k' := Ne.symm hk
  simp [hget, hset1, List.find?_append, h1, hk2]

theorem hget_hdel_self (h : List (String × String)) (k : String) :
    hget (hdel h k) k = none := by
  have h1 : (h.filter (fun p => p.1 != k)).find? (fun p => p.1 == k) = none := by
    rw [List.find?_eq_none]
    intro x hx
    have h2 := (List.mem_filter.mp hx).2
    simp only [bne_iff_ne, ne_eq, decide_eq_true_eq] at h2
    simp [h2]
  simp [hget, hdel, h1]

theorem hget_hdel_ne (h : List (String × String)) (k k' : String) (hk : k' ≠ k) :
    hget (hdel h k) k' = hget h k' := by
  have h1 : (h.filter (fun p => p.1 != k)).find? (fun p => p.1 == k') =
      h.find? (fun p => p.1 == k') := by
    apply find?_filter_of_imp
    intro x hx
    have hx' : x.1 = k' := by simpa using hx
    simp [hx', hk]
  simp [hget, hdel, h1]

/-- Pointwise description of the double write `hSet { [a]: b, [b]: a }`. -/
theorem hget_bind2 (P : List (String × String)) (a b x : String) (hab : a ≠ b) :
    hget (hset1 (hset1 P a b) b a) x =
      if x = b then some a else if x = a then some b else hget P x := by
  by_cases hb : x = b
  · subst hb; simp [hget_hset1_self]
  · by_cases ha : x = a
    · subst ha
      rw [hget_hset1_ne _ _ _ _ (fun hh => hab hh)]
      simp [hget_hset1_self, hb]
    · rw [hget_hset1_ne _ _ _ _ hb, hget_hset1_ne _ _ _ _ ha]
      simp [hb, ha]

/-- Pointwise description of the double delete of a dissolved pair. -/
theorem hget_clear2 (P : List (String × String)) (a b x : String) :
    hget (hdel (hdel P a) b) x =
      if x = b then none else if x = a then none else hget P x := by
  by_cases hb : x = b
  · subst hb; simp [hget_hdel_self]
  · by_cases ha : x = a
    · subst ha; rw [hget_hdel_ne _ _ _ hb]; simp [hget_hdel_self, hb]
    · rw [hget_hdel_ne _ _ _ hb, hget_hdel_ne _ _ _ ha]; simp [hb, ha]

/-! ## `popValidWaiting` loop specification -/
theorem popValidAux_zero (reg : List (String × String)) (ex : String) (q : List String) :
    popValidAux reg ex 0 q = (none, q) := rfl

theorem popValidAux_nil (reg : List (String × String)) (ex : String) (n : Nat) :
    popValidAux reg ex (n + 1) [] = (none, []) := rfl

theorem popValidAux_cons (reg : List (String × String)) (ex : String) (n : Nat)
    (i : String) (t : List String) :
    popValidAux reg ex (n + 1) (i :: t) =
      if i = "" then (none, t)
      else if ex ≠ "" ∧ i = ex then popValidAux reg ex n t
      else if regHas reg i then (some i, t)
      else popValidAux reg ex n t := rfl

/-- What one run of the pop loop guarantees: it pops at most `fuel`
entries off the head (the remaining queue is the corresponding suffix),
and a successful result is a non-empty id distinct from the excluded id
(when that is truthy) with a registered socket, popped from the queue. -/
theorem popValidAux_spec (reg : List (String × String)) (ex : String) :
    ∀ (fuel : Nat) (q : List String),
      (∃ pre, q = pre ++ (popValidAux reg ex fuel q).2 ∧ pre.length ≤ fuel) ∧
      (∀ c, (popValidAux reg ex fuel q).1 = some c →
         c ≠ "" ∧ regHas reg c = true ∧ (ex ≠ "" → c ≠ ex) ∧
         ∃ pre, q = pre ++ c :: (popValidAux reg ex fuel q).2) := by
  intro fuel
  induction fuel with
  | zero =>
      intro q
      refine ⟨⟨[], by simp [popValidAux_zero], by simp⟩, ?_⟩
      intro c hc
      simp [popValidAux_zero] at hc
  | succ n ih =>
      intro q
      cases q with
      | nil =>
          refine ⟨⟨[], by simp [popValidAux_nil], by simp⟩, ?_⟩
          intro c hc
          simp [popValidAux_nil] at hc
      | cons i t =>
          by_cases hi : i = ""
          · subst hi
            refine ⟨⟨[""], by simp [popValidAux_cons], by simp⟩, ?_⟩
            intro c hc
            simp [popValidAux_cons] at hc
          · by_cases hex : ex ≠ "" ∧ i = ex
            · have heq : popValidAux reg ex (n + 1) (i :: t) = popValidAux reg ex n t := by
                rw [popValidAux_cons]
                simp [hi, hex]
              rw [heq]
              obtain ⟨⟨pre, hpre, hlen⟩, hsome⟩ := ih t
              refine ⟨⟨i :: pre, by rw [List.cons_append, ← hpre], by simp; omega⟩, ?_⟩
              intro c hc
              obtain ⟨h1, h2, h3, pre', hpre'⟩ := hsome c hc
              exact ⟨h1, h2, h3, i :: pre', by rw [List.cons_append, ← hpre']⟩
            · by_cases hreg : regHas reg i
              · have heq : popValidAux reg ex (n + 1) (i :: t) = (some i, t) := by
                  rw [popValidAux_cons]
                  simp [hi, hex, hreg]
                rw [heq]
                refine ⟨⟨[i], by simp, by simp⟩, ?_⟩
                intro c hc
                simp only [Option.some.injEq] at hc
                subst hc
                refine ⟨hi, hreg, ?_, ⟨[], by simp⟩⟩
                intro hexne hce
                exact hex ⟨hexne, hce⟩
              · have heq : popValidAux reg ex (n + 1) (i :: t) = popValidAux reg ex n t := by
                  rw [popValidAux_cons]
                  simp [hi, hex, hreg]
                rw [heq]
                obtain ⟨⟨pre, hpre, hlen⟩, hsome⟩ := ih t
                refine ⟨⟨i :: pre, by rw [List.cons_append, ← hpre], by simp; omega⟩, ?_⟩
                intro c hc
                obtain ⟨h1, h2, h3, pre', hpre'⟩ := hsome c hc
                exact ⟨h1, h2, h3, i :: pre', by rw [List.cons_append, ← hpre']⟩

theorem inv_init : Inv initState := by
  constructor <;> simp [initState, hget]

theorem inv_queue_sublist {st : ServerState} (q' : List String)
    (hs : List.Sublist q' st.queue) (h : Inv st) : Inv {st with queue := q'} := by
  refine ⟨h.symm, h.keyNe, ?_, h.nodup.sublist hs, h.regNe⟩
  intro a ha
  exact h.excl a (hs.subset ha)

theorem inv_removeFromQueue {st : ServerState} (id : String) (h : Inv st) :
    Inv (removeFromQueue st id) :=
  inv_queue_sublist _ (List.filter_sublist _) h

theorem not_mem_filter_ne_self (l : List String) (id : String) :
    id ∉ l.filter (fun x => x != id) := by
  simp [List.mem_filter]

theorem inv_rl {st : ServerState} (x : List (String × Nat)) (h : Inv st) :
    Inv {st with nextRateLimits := x} :=
  ⟨h.symm, h.keyNe, h.excl, h.nodup, h.regNe⟩

theorem inv_enqueue {st : ServerState} (id : String) (h : Inv st)
    (hp : hget st.pairs id = none) : Inv (enqueue st id).1 := by
  unfold enqueue
  by_cases hid : id = ""
  · simp [hid]; exact h
  · simp only [hid, if_false]
    refine ⟨h.symm, h.keyNe, ?_, ?_, h.regNe⟩
    · intro a ha
      simp only [List.mem_append, List.mem_filter, List.mem_singleton] at ha
      rcases ha with ⟨haq, _⟩ | ha
      · exact h.excl a haq
      · rw [ha]; exact hp
    · rw [List.nodup_append]
      refine ⟨h.nodup.filter _, List.nodup_singleton _, ?_⟩
      intro a ha hb
      simp only [List.mem_filter, bne_iff_ne, ne_eq, decide_eq_true_eq] at ha
      simp only [List.mem_singleton] at hb
      exact ha.2 (by simp [hb])

theorem inv_delPair {st : ServerState} (a p : String) (h : Inv st)
    (hap : hget st.pairs a = some p) :
    Inv {st with pairs := hdel (hdel st.pairs a) p} := by
  have hpa : hget st.pairs p = some a := h.symm a p hap
  refine ⟨?_, ?_, ?_, h.nodup, h.regNe⟩
  · intro x y hxy
    rw [hget_clear2] at hxy ⊢
    by_cases hxp : x = p
    · simp [hxp] at hxy
    · by_cases hxa : x = a
      · simp [hxp, hxa] at hxy
      · simp only [hxp, hxa, if_false] at hxy
        have hyx : hget st.pairs y = some x := h.symm x y hxy
        have hyp : y ≠ p := by
          intro he; rw [he, hpa] at hyx
          exact hxa (Option.some.inj hyx).symm
        have hya : y ≠ a := by
          intro he; rw [he, hap] at hyx
          exact hxp (Option.some.inj hyx).symm
        simp [hyp, hya, hyx]
  · intro x y hxy
    rw [hget_clear2] at hxy
    by_cases hxp : x = p
    · simp [hxp] at hxy
    · by_cases hxa : x = a
      · simp [hxp, hxa] at hxy
      · simp only [hxp, hxa, if_false] at hxy
        exact h.keyNe x y hxy
  · intro x hx
    rw [hget_clear2]
    have := h.excl x hx
    by_cases hxp : x = p
    · simp [hxp]
    · by_cases hxa : x = a
      · simp [hxp, hxa]
      · simp [hxp, hxa, this]

theorem inv_bindPair {st : ServerState} (a b : String) (h : Inv st)
    (ha : a ≠ "") (hb : b ≠ "") (hab : a ≠ b)
    (hpa : hget st.pairs a = none) (hpb : hget st.pairs b = none)
    (hqa : a ∉ st.queue) (hqb : b ∉ st.queue) :
    Inv {st with pairs := hset1 (hset1 st.pairs a b) b a} := by
  have hba : b ≠ a := Ne.symm hab
  refine ⟨?_, ?_, ?_, h.nodup, h.regNe⟩
  · intro x y hxy
    rw [hget_bind2 _ _ _ _ hab] at hxy ⊢
    by_cases hxb : x = b
    · subst hxb
      rw [if_pos rfl] at hxy
      have hy : y = a := (Option.some.inj hxy).symm
      subst hy
      rw [if_neg hab, if_pos rfl]
    · by_cases hxa : x = a
      · subst hxa
        rw [if_neg hab, if_pos rfl] at hxy
        have hy : y = b := (Option.some.inj hxy).symm
        subst hy
        rw [if_pos rfl]
      · rw [if_neg hxb, if_neg hxa] at hxy
        have hyb : y ≠ b := by
          intro he; rw [he] at hxy
          have hz := h.symm x b hxy
          rw [hpb] at hz; exact Option.noConfusion hz
        have hya : y ≠ a := by
          intro he; rw [he] at hxy
          have hz := h.symm x a hxy
          rw [hpa] at hz; exact Option.noConfusion hz
        rw [if_neg hyb, if_neg hya]
        exact h.symm x y hxy
  · intro x y hxy
    rw [hget_bind2 _ _ _ _ hab] at hxy
    by_cases hxb : x = b
    · subst hxb
      rw [if_pos rfl] at hxy
      have hy : y = a := (Option.some.inj hxy).symm
      subst hy
      exact ⟨hb, ha⟩
    · by_cases hxa : x = a
      · subst hxa
        rw [if_neg hab, if_pos rfl] at hxy
        have hy : y = b := (Option.some.inj hxy).symm
        subst hy
        exact ⟨ha, hb⟩
      · rw [if_neg hxb, if_neg hxa] at hxy
        exact h.keyNe x y hxy
  · intro x hx
    rw [hget_bind2 _ _ _ _ hab]
    have hxb : x ≠ b := fun he => hqb (he ▸ hx)
    have hxa : x ≠ a := fun he => hqa (he ▸ hx)
    rw [if_neg hxb, if_neg hxa]
    exact h.excl x hx

theorem inv_tryMatchNow {st : ServerState} (id : String) (i : Bool) (h : Inv st)
    (hid : id ≠ "") (hp : hget st.pairs id = none) : Inv (tryMatchNow st id i).1 := by
  unfold tryMatchNow
  dsimp only
  have h1 : Inv (removeFromQueue st id) := inv_removeFromQueue id h
  have hidq : id ∉ (removeFromQueue st id).queue := not_mem_filter_ne_self _ _
  obtain ⟨⟨pre0, hpre0, _⟩, hsome⟩ :=
    popValidAux_spec (removeFromQueue st id).registry id 50 (removeFromQueue st id).queue
  rcases hpop : popValidAux (removeFromQueue st id).registry id 50 (removeFromQueue st id).queue
    with ⟨r, q'⟩
  rw [hpop] at hpre0 hsome
  cases r with
  | some c =>
      obtain ⟨hc0, hcreg, hcex, pre, hpre⟩ := hsome c rfl
      simp only at hpre hpre0
      have hcid : c ≠ id := hcex hid
      have hsub : List.Sublist q' (removeFromQueue st id).queue := by
        rw [hpre]
        exact (List.sublist_cons_self c q').trans (List.sublist_append_right pre _)
      have h2 : Inv {removeFromQueue st id with queue := q'} :=
        inv_queue_sublist q' hsub h1
      have hcq : c ∈ (removeFromQueue st id).queue := by
        rw [hpre]; exact List.mem_append_right _ (List.mem_cons_self _ _)
      have hpc : hget st.pairs c = none := h1.excl c hcq
      have hidq' : id ∉ q' := fun hm => hidq (hsub.subset hm)
      have hcq' : c ∉ q' := by
        have hnd : ((c :: q').Nodup) := by
          have hnd0 := h1.nodup
          rw [hpre] at hnd0
          exact (List.sublist_append_right pre _).nodup hnd0
        exact (List.nodup_cons.mp hnd).1
      have hif : ¬ (id = "" ∨ c = "") := by
        intro hor; rcases hor with h' | h'
        · exact hid h'
        · exact hc0 h'
      show Inv (setPaired {removeFromQueue st id with queue := q'} id c)
      unfold setPaired
      rw [if_neg hif]
      exact inv_bindPair id c h2 hid hc0 (fun he => hcid he.symm) hp hpc hidq' hcq'
  | none =>
      have h2 : Inv {removeFromQueue st id with queue := q'} := by
        refine inv_queue_sublist q' ?_ h1
        rw [hpre0]
        exact List.sublist_append_right pre0 _
      show Inv (enqueue {removeFromQueue st id with queue := q'} id).1
      exact inv_enqueue id h2 hp

/-! ## Handler-level invariance -/
theorem enqueue_pairs (st : ServerState) (x : String) : (enqueue st x).1.pairs = st.pairs := by
  unfold enqueue
  by_cases hx : x = "" <;> simp [hx]

theorem enqueue_registry (st : ServerState) (x : String) :
    (enqueue st x).1.registry = st.registry := by
  unfold enqueue
  by_cases hx : x = "" <;> simp [hx]

theorem getPartner_ne (st : ServerState) (id : String) (hid : id ≠ "") :
    getPartner st id = hget st.pairs id := by
  simp [getPartner, hid]

theorem truthy_getPartner {st : ServerState} {id : String} (h : Inv st)
    (ht : truthyS (getPartner st id) = true) :
    id ≠ "" ∧ ∃ p, getPartner st id = some p ∧ p ≠ "" ∧ hget st.pairs id = some p := by
  unfold getPartner at ht ⊢
  by_cases hid : id = ""
  · rw [if_pos hid] at ht
    simp [truthyS] at ht
  · rw [if_neg hid] at ht ⊢
    cases hp : hget st.pairs id with
    | none => rw [hp] at ht; simp [truthyS] at ht
    | some p => exact ⟨hid, p, rfl, (h.keyNe id p hp).2, rfl⟩

theorem falsy_getPartner {st : ServerState} {id : String} (h : Inv st) (hid : id ≠ "")
    (ht : truthyS (getPartner st id) = false) : hget st.pairs id = none := by
  rw [getPartner_ne st id hid] at ht
  cases hp : hget st.pairs id with
  | none => rfl
  | some p =>
      rw [hp] at ht
      have hpne := (h.keyNe id p hp).2
      simp [truthyS, hpne] at ht

theorem clearPair_tt (st : ServerState) (a p : String) (ha : a ≠ "") (hp : p ≠ "") :
    clearPair st (some a) (some p) =
      ({st with pairs := hdel (hdel st.pairs a) p}, some a, some p) := by
  unfold clearPair
  simp [truthyS, ha, hp, getS]

theorem hget_clear2_left (P : List (String × String)) (a b : String) :
    hget (hdel (hdel P a) b) a = none := by
  rw [hget_clear2]
  by_cases hab : a = b <;> simp [hab]

theorem hget_clear2_right (P : List (String × String)) (a b : String) :
    hget (hdel (hdel P a) b) b = none := by
  rw [hget_clear2]
  simp

theorem inv_joinH {st : ServerState} (id : String) (h : Inv st) (hid : id ≠ "") :
    Inv (joinH st id).1 := by
  unfold joinH
  by_cases ht : truthyS (getPartner st id) = true
  · rw [if_pos ht]
    exact h
  · rw [if_neg ht]
    exact inv_tryMatchNow id true h hid
      (falsy_getPartner h hid (Bool.not_eq_true _ ▸ ht))

theorem inv_nextH {st : ServerState} (id : String) (now : Nat) (h : Inv st) (hid : id ≠ "") :
    Inv (nextH st id now).1 := by
  unfold nextH
  by_cases hcool : now - lastNextOf st id < NEXT_COOLDOWN_MS
  · rw [if_pos hcool]
    exact h
  · rw [if_neg hcool]
    dsimp only
    have h0 : Inv (setRateLimit st id now) := inv_rl _ h
    by_cases ht : truthyS (getPartner (setRateLimit st id now) id) = true
    · rw [if_pos ht]
      obtain ⟨_, p, hpopt, hpne, hpp⟩ := truthy_getPartner h0 ht
      rw [hpopt]
      rw [clearPair_tt _ id p hid hpne]
      dsimp only
      simp only [getS]
      have hD : Inv {setRateLimit st id now with
          pairs := hdel (hdel (setRateLimit st id now).pairs id) p} :=
        inv_delPair id p h0 hpp
      by_cases hreg : regHas ({setRateLimit st id now with
          pairs := hdel (hdel (setRateLimit st id now).pairs id) p}).registry p = true
      · rw [if_pos hreg]
        have hE : Inv (enqueue {setRateLimit st id now with
            pairs := hdel (hdel (setRateLimit st id now).pairs id) p} p).1 :=
          inv_enqueue p hD (hget_clear2_right _ _ _)
        refine inv_tryMatchNow id true hE hid ?_
        rw [enqueue_pairs]
        exact hget_clear2_left _ _ _
      · rw [if_neg hreg]
        exact inv_tryMatchNow id true hD hid (hget_clear2_left _ _ _)
    · rw [if_neg ht]
      have h1 : Inv (removeFromQueue (setRateLimit st id now) id) :=
        inv_removeFromQueue id h0
      have hpn : hget (setRateLimit st id now).pairs id = none :=
        falsy_getPartner h0 hid (Bool.not_eq_true _ ▸ ht)
      exact inv_tryMatchNow id true h1 hid hpn

theorem inv_leaveH {st : ServerState} (id : String) (h : Inv st) (hid : id ≠ "") :
    Inv (leaveH st id).1 := by
  unfold leaveH
  dsimp only
  by_cases ht : truthyS (getPartner st id) = true
  · rw [if_pos ht]
    obtain ⟨_, p, hpopt, hpne, hpp⟩ := truthy_getPartner h ht
    rw [hpopt]
    rw [clearPair_tt _ id p hid hpne]
    dsimp only
    simp only [getS]
    have hD : Inv {st with pairs := hdel (hdel st.pairs id) p} := inv_delPair id p h hpp
    by_cases hreg : regHas ({st with pairs := hdel (hdel st.pairs id) p}).registry p = true
    · rw [if_pos hreg]
      exact inv_removeFromQueue id (inv_enqueue p hD (hget_clear2_right _ _ _))
    · rw [if_neg hreg]
      exact inv_removeFromQueue id hD
  · rw [if_neg ht]
    exact inv_removeFromQueue id h

theorem inv_disconnectH {st : ServerState} (id : String) (h : Inv st) (hid : id ≠ "") :
    Inv (disconnectH st id).1 := by
  unfold disconnectH
  dsimp only
  by_cases ht : truthyS (getPartner st id) = true
  · rw [if_pos ht]
    obtain ⟨_, p, hpopt, hpne, hpp⟩ := truthy_getPartner h ht
    rw [hpopt]
    rw [clearPair_tt _ id p hid hpne]
    dsimp only
    simp only [getS]
    have hD : Inv {st with pairs := hdel (hdel st.pairs id) p} := inv_delPair id p h hpp
    by_cases hreg : regHas ({st with pairs := hdel (hdel st.pairs id) p}).registry p = true
    · rw [if_pos hreg]
      have hE : Inv (enqueue {st with pairs := hdel (hdel st.pairs id) p} p).1 :=
        inv_enqueue p hD (hget_clear2_right _ _ _)
      have hT : Inv (tryMatchNow (enqueue {st with
          pairs := hdel (hdel st.pairs id) p} p).1 p false).1 := by
        refine inv_tryMatchNow p false hE hpne ?_
        rw [enqueue_pairs]
        exact hget_clear2_right _ _ _
      exact inv_rl _ (inv_removeFromQueue id hT)
    · rw [if_neg hreg]
      exact inv_rl _ (inv_removeFromQueue id hD)
  · rw [if_neg ht]
    exact inv_rl _ (inv_removeFromQueue id h)

theorem inv_connectStep {st : ServerState} (id ip : String) (h : Inv st) (hid : id ≠ "") :
    Inv (connectStep st id ip) := by
  refine ⟨h.symm, h.keyNe, h.excl, h.nodup, ?_⟩
  intro p hp
  rcases List.mem_append.mp hp with hp1 | hp1
  · exact h.regNe p hp1
  · rw [List.mem_singleton.mp hp1]
    exact hid

theorem inv_unregister {st : ServerState} (id : String) (h : Inv st) :
    Inv (unregister st id) := by
  refine ⟨h.symm, h.keyNe, h.excl, h.nodup, ?_⟩
  intro p hp
  exact h.regNe p (List.mem_of_mem_filter hp)

theorem regHas_ne {st : ServerState} {id : String} (h : Inv st)
    (hr : regHas st.registry id = true) : id ≠ "" := by
  unfold regHas at hr
  rw [List.find?_isSome] at hr
  obtain ⟨x, hx, hpx⟩ := hr
  have hx1 : x.1 = id := by simpa using hpx
  rw [← hx1]
  exact h.regNe x hx

theorem inv_reachable (st : ServerState) (h : Reachable st) : Inv st := by
  induction h with
  | init => exact inv_init
  | connect st id ip hr hid hfresh hban ih => exact inv_connectStep id ip ih hid
  | join st id hr hreg ih => exact inv_joinH id ih (regHas_ne ih hreg)
  | next st id now hr hreg ih => exact inv_nextH id now ih (regHas_ne ih hreg)
  | leave st id hr hreg ih => exact inv_leaveH id ih (regHas_ne ih hreg)
  | disconnect st id hr hreg ih =>
      exact inv_disconnectH id (inv_unregister id ih) (regHas_ne ih hreg)

/-- **C2.** Pair symmetry is an invariant of every operation: starting from
the empty pair hash, after any sequence of `join`, `next`, `leave` and
disconnect events (each processed sequentially to completion), every
connection `a` present in the pair hash satisfies
`partner (partner a) = a`. -/
theorem C2_pair_symmetry_invariant (st : ServerState) (h : Reachable st)
    (a b : String) (hab : getPartner st a = some b) : getPartner st b = some a := by
  have hinv := inv_reachable st h
  unfold getPartner at hab ⊢
  by_cases ha : a = ""
  · rw [if_pos ha] at hab
    exact Option.noConfusion hab
  · rw [if_neg ha] at hab
    have hs := hinv.symm a b hab
    have hb : b ≠ "" := (hinv.keyNe a b hab).2
    rw [if_neg hb]
    exact hs

/-- Witness for C2: in the concrete reachable state where `B`'s `join`
paired it with the waiting `A`, the stored pair edge is mutual. -/
theorem C2_pair_symmetry_invariant_witness : getPartner stW3 "B" = some "A" :=
  C2_pair_symmetry_invariant stW3
    (Reachable.join stW2 "B"
      (Reachable.join stW1 "A"
        (Reachable.connect (connectStep initState "A" "ipA") "B" "ipB"
          (Reachable.connect initState "A" "ipA" Reachable.init (by decide) rfl rfl)
          (by decide) rfl rfl)
        rfl)
      rfl)
    "A" "B" rfl

/-! ## Projection and event-shape helpers -/
theorem setPaired_rl (st : ServerState) (a b : String) :
    (setPaired st a b).nextRateLimits = st.nextRateLimits := by
  unfold setPaired
  split <;> rfl

theorem enqueue_rl (st : ServerState) (x : String) :
    (enqueue st x).1.nextRateLimits = st.nextRateLimits := by
  unfold enqueue
  split <;> rfl

theorem tryMatchNow_rl (st : ServerState) (id : String) (i : Bool) :
    (tryMatchNow st id i).1.nextRateLimits = st.nextRateLimits := by
  unfold tryMatchNow
  dsimp only
  rcases hpop : popValidAux (removeFromQueue st id).registry id 50 (removeFromQueue st id).queue
    with ⟨r, q'⟩
  cases r with
  | some c =>
      show (setPaired {removeFromQueue st id with queue := q'} id c).nextRateLimits =
        st.nextRateLimits
      rw [setPaired_rl]
      rfl
  | none =>
      show (enqueue {removeFromQueue st id with queue := q'} id).1.nextRateLimits =
        st.nextRateLimits
      rw [enqueue_rl]
      rfl

theorem clearPair_rl (st : ServerState) (a0 b0 : Option String) :
    (clearPair st a0 b0).1.nextRateLimits = st.nextRateLimits := by
  unfold clearPair
  dsimp only
  split_ifs <;> rfl

theorem enqueue_events (st : ServerState) (x : String) :
    ∀ m ∈ (enqueue st x).2, m.event = "waiting" := by
  unfold enqueue
  by_cases hx : x = ""
  · rw [if_pos hx]
    intro m hm
    simp at hm
  · rw [if_neg hx]
    intro m hm
    rw [List.mem_singleton.mp hm]
    rfl

theorem tryMatchNow_events (st : ServerState) (id : String) (i : Bool) :
    ∀ m ∈ (tryMatchNow st id i).2.1, m.event = "paired" ∨ m.event = "waiting" := by
  unfold tryMatchNow
  dsimp only
  rcases hpop : popValidAux (removeFromQueue st id).registry id 50 (removeFromQueue st id).queue
    with ⟨r, q'⟩
  cases r with
  | some c =>
      intro m hm
      have hm' : m = pairedMsg id c i ∨ m = pairedMsg c id (!i) := by simpa using hm
      rcases hm' with h' | h' <;> (left; rw [h']; rfl)
  | none =>
      intro m hm
      right
      exact enqueue_events _ _ m hm

/-- After `tryMatchNow`, the caller either holds a fresh partner popped
from the queue (non-empty, registered, distinct from the caller), or its
pair entry is untouched and it sits at the tail of the queue. -/
theorem tryMatchNow_outcome (st : ServerState) (id : String) (i : Bool) (hid : id ≠ "") :
    (∃ c, c ≠ id ∧ c ≠ "" ∧ regHas st.registry c = true ∧
       getPartner (tryMatchNow st id i).1 id = some c) ∨
    (getPartner (tryMatchNow st id i).1 id = getPartner st id ∧
       ∃ pre, (tryMatchNow st id i).1.queue = pre ++ [id]) := by
  unfold tryMatchNow
  dsimp only
  obtain ⟨_, hsome⟩ :=
    popValidAux_spec (removeFromQueue st id).registry id 50 (removeFromQueue st id).queue
  rcases hpop : popValidAux (removeFromQueue st id).registry id 50 (removeFromQueue st id).queue
    with ⟨r, q'⟩
  rw [hpop] at hsome
  cases r with
  | some c =>
      obtain ⟨hc0, hcreg, hcex, pre, hpre⟩ := hsome c rfl
      have hcid : c ≠ id := hcex hid
      left
      refine ⟨c, hcid, hc0, hcreg, ?_⟩
      show getPartner (setPaired {removeFromQueue st id with queue := q'} id c) id = some c
      have hif : ¬ (id = "" ∨ c = "") := by
        intro hor; rcases hor with h' | h'
        · exact hid h'
        · exact hc0 h'
      unfold setPaired
      rw [if_neg hif]
      unfold getPartner
      rw [if_neg hid]
      dsimp only
      rw [hget_bind2 _ _ _ _ (show id ≠ c from fun he => hcid he.symm)]
      rw [if_neg (show ¬ id = c from fun he => hcid he.symm), if_pos rfl]
  | none =>
      right
      constructor
      · show getPartner (enqueue {removeFromQueue st id with queue := q'} id).1 id =
          getPartner st id
        unfold getPartner
        rw [if_neg hid, if_neg hid]
        rw [enqueue_pairs]
        rfl
      · show ∃ pre, (enqueue {removeFromQueue st id with queue := q'} id).1.queue = pre ++ [id]
        unfold enqueue
        rw [if_neg hid]
        exact ⟨_, rfl⟩

/-! ## C1 — payload of the `paired` event -/
/-- Counterexample for C1 as stated: with exactly `A` waiting, `B`'s
`join` does bind the pair, but the delivered payloads key the partner id
as `peerId` (`{ peerId, initiator }`), not `peer` as the claim asserts. -/
theorem C1_paired_payload_counterexample :
    (joinH stW2 "B").2 ≠
      [⟨"B", "paired", some (.obj [("peer", .str "A"), ("initiator", .boolean true)])⟩,
       ⟨"A", "paired", some (.obj [("peer", .str "B"), ("initiator", .boolean false)])⟩] := by
  intro hcontra
  have h1 : (joinH stW2 "B").2 = [pairedMsg "B" "A" true, pairedMsg "A" "B" false] := rfl
  rw [h1] at hcontra
  simp [pairedMsg] at hcontra

/-- **C1 (amended).** When `B` joins while exactly one other client `A`
waits in the queue (and `B` is unpaired), the server binds the pair and
delivers `paired{peerId: A, initiator: true}` to `B` and
`paired{peerId: B, initiator: false}` to `A` — the payload field holding
the partner id being named `peerId` (not `peer`). -/
theorem C1_join_pairs_single_waiter (st : ServerState) (A B : String)
    (hq : st.queue = [A]) (hA : A ≠ "") (hB : B ≠ "") (hAB : A ≠ B)
    (hreg : regHas st.registry A = true) (hBp : getPartner st B = none) :
    (joinH st B).2 = [pairedMsg B A true, pairedMsg A B false] ∧
    getPartner (joinH st B).1 B = some A ∧
    getPartner (joinH st B).1 A = some B := by
  have hBA : B ≠ A := Ne.symm hAB
  unfold joinH
  rw [hBp]
  rw [if_neg (show ¬ truthyS none = true by simp [truthyS])]
  unfold tryMatchNow
  dsimp only
  have hq1 : (removeFromQueue st B).queue = [A] := by
    show st.queue.filter (fun x => x != B) = [A]
    rw [hq]
    simp [hAB]
  rw [hq1]
  rw [popValidAux_cons]
  rw [if_neg hA]
  rw [if_neg (show ¬ ((B : String) ≠ "" ∧ A = B) from fun hh => hAB hh.2)]
  rw [if_pos (show regHas (removeFromQueue st B).registry A = true from hreg)]
  dsimp only
  have hif : ¬ (B = "" ∨ A = "") := by
    intro hor; rcases hor with h' | h'
    · exact hB h'
    · exact hA h'
  unfold setPaired
  rw [if_neg hif]
  refine ⟨rfl, ?_, ?_⟩
  · unfold getPartner
    rw [if_neg hB]
    dsimp only
    rw [hget_bind2 _ _ _ _ hBA]
    rw [if_neg hBA, if_pos rfl]
  · unfold getPartner
    rw [if_neg hA]
    dsimp only
    rw [hget_bind2 _ _ _ _ hBA]
    rw [if_pos rfl]

/-- Witness for C1 (amended) at the concrete two-client fixture. -/
theorem C1_join_pairs_single_waiter_witness :
    (joinH stW2 "B").2 = [pairedMsg "B" "A" true, pairedMsg "A" "B" false] ∧
    getPartner (joinH stW2 "B").1 "B" = some "A" ∧
    getPartner (joinH stW2 "B").1 "A" = some "B" :=
  C1_join_pairs_single_waiter stW2 "A" "B" rfl (by decide) (by decide) (by decide) rfl rfl

/-! ## C7 — bounded pop, validity, no self-match -/
/-- **C7.** `popValidWaiting` pops at most 50 entries (the queue left in
the store is the suffix after at most 50 pops) and a returned id is never
the excluded caller, never empty, and always has a registered socket;
consequently a `tryMatchNow` that pairs an unpaired caller never produces
a pair `(A, A)`. -/
theorem C7_popvalid_bounded_valid_no_self (st : ServerState) (ex : String) (hex : ex ≠ "") :
    (∃ pre, st.queue = pre ++ (popValidWaiting st ex).2 ∧ pre.length ≤ 50) ∧
    (∀ c, (popValidWaiting st ex).1 = some c →
       c ≠ ex ∧ c ≠ "" ∧ regHas st.registry c = true) ∧
    (∀ id i, id ≠ "" → getPartner st id = none →
       ∀ c, getPartner (tryMatchNow st id i).1 id = some c → c ≠ id) := by
  obtain ⟨hpre, hsome⟩ := popValidAux_spec st.registry ex 50 st.queue
  refine ⟨hpre, ?_, ?_⟩
  · intro c hc
    obtain ⟨hc0, hcreg, hcex, _⟩ := hsome c hc
    exact ⟨hcex hex, hc0, hcreg⟩
  · intro id i hid hp c hc
    rcases tryMatchNow_outcome st id i hid with ⟨c', hc'id, _, _, hcp⟩ | ⟨hsame, _⟩
    · rw [hcp] at hc
      rw [← Option.some.inj hc]
      exact hc'id
    · rw [hsame, hp] at hc
      exact Option.noConfusion hc

/-- Witness for C7 at the concrete fixture with `A` waiting. -/
theorem C7_witness :
    (∃ pre, stW2.queue = pre ++ (popValidWaiting stW2 "B").2 ∧ pre.length ≤ 50) ∧
    (∀ c, (popValidWaiting stW2 "B").1 = some c →
       c ≠ "B" ∧ c ≠ "" ∧ regHas stW2.registry c = true) ∧
    (∀ id i, id ≠ "" → getPartner stW2 id = none →
       ∀ c, getPartner (tryMatchNow stW2 id i).1 id = some c → c ≠ id) :=
  C7_popvalid_bounded_valid_no_self stW2 "B" (by decide)

/-! ## C8 — `next` from `WAITING` never ends `IDLE` -/
/-- **C8.** A non-rate-limited `next` from a connection in state `WAITING`
(queued, unpaired) leaves it `WAITING` — re-enqueued at the tail — or
`PAIRED` (a non-empty partner recorded), never `IDLE`. -/
theorem C8_next_from_waiting (st : ServerState) (id : String) (now : Nat)
    (_hw : id ∈ st.queue) (hp : getPartner st id = none) (hid : id ≠ "")
    (hcool : 1000 ≤ now - lastNextOf st id) :
    (∃ pre, (nextH st id now).1.queue = pre ++ [id]) ∨
    (∃ c, getPartner (nextH st id now).1 id = some c ∧ c ≠ "") := by
  unfold nextH
  rw [if_neg (show ¬ (now - lastNextOf st id < NEXT_COOLDOWN_MS) by
    unfold NEXT_COOLDOWN_MS; omega)]
  dsimp only
  have hp0 : getPartner (setRateLimit st id now) id = none := hp
  rw [hp0]
  rw [if_neg (show ¬ truthyS none = true by simp [truthyS])]
  dsimp only
  rcases tryMatchNow_outcome (removeFromQueue (setRateLimit st id now) id) id true hid
    with ⟨c, _, hc0, _, hcp⟩ | ⟨_, pre, htail⟩
  · right
    exact ⟨c, hcp, hc0⟩
  · left
    exact ⟨pre, htail⟩

/-- Witness for C8: `A` is waiting alone in `stW2` and presses `next`;
it is re-enqueued at the tail. -/
theorem C8_next_from_waiting_witness :
    (∃ pre, (nextH stW2 "A" 5000).1.queue = pre ++ ["A"]) ∨
    (∃ c, getPartner (nextH stW2 "A" 5000).1 "A" = some c ∧ c ≠ "") :=
  C8_next_from_waiting stW2 "A" 5000 (by decide) rfl (by decide) (by decide)

/-! ## C5 — `next` cooldown -/
theorem find?_filterset_self {α : Type} (l : List (String × α)) (k : String) (v : α) :
    (l.filter (fun p => p.1 != k) ++ [(k, v)]).find? (fun p => p.1 == k) = some (k, v) := by
  have h1 : (l.filter (fun p => p.1 != k)).find? (fun p => p.1 == k) = none := by
    rw [List.find?_eq_none]
    intro x hx
    have h2 := (List.mem_filter.mp hx).2
    simp only [bne_iff_ne, ne_eq, decide_eq_true_eq] at h2
    simp [h2]
  simp [List.find?_append, h1]

theorem lastNextOf_set_self (st : ServerState) (id : String) (now : Nat) :
    lastNextOf (setRateLimit st id now) id = now := by
  unfold lastNextOf setRateLimit
  dsimp only
  rw [find?_filterset_self]
  rfl

theorem lastNextOf_eq_of_rl {st1 st2 : ServerState}
    (h : st1.nextRateLimits = st2.nextRateLimits) (id : String) :
    lastNextOf st1 id = lastNextOf st2 id := by
  unfold lastNextOf
  rw [h]

/-- Once past the cooldown check, `next` records `now` and no later step
touches the rate-limit map. -/
theorem nextH_rl_proceed (st : ServerState) (id : String) (now : Nat)
    (hcool : ¬ (now - lastNextOf st id < NEXT_COOLDOWN_MS)) :
    (nextH st id now).1.nextRateLimits = (setRateLimit st id now).nextRateLimits := by
  unfold nextH
  rw [if_neg hcool]
  dsimp only
  by_cases ht : truthyS (getPartner (setRateLimit st id now) id) = true
  · rw [if_pos ht]
    dsimp only
    rw [tryMatchNow_rl]
    split
    · rw [enqueue_rl, clearPair_rl]
    · rw [clearPair_rl]
  · rw [if_neg ht]
    dsimp only
    rw [tryMatchNow_rl]
    rfl

/-- Every event a non-rate-limited `next` emits is `partner-disconnected`,
`waiting` or `paired`. -/
theorem nextH_events_proceed (st : ServerState) (id : String) (now : Nat)
    (hcool : ¬ (now - lastNextOf st id < NEXT_COOLDOWN_MS)) :
    ∀ m ∈ (nextH st id now).2,
      m.event = "partner-disconnected" ∨ m.event = "waiting" ∨ m.event = "paired" := by
  unfold nextH
  rw [if_neg hcool]
  dsimp only
  by_cases ht : truthyS (getPartner (setRateLimit st id now) id) = true
  · rw [if_pos ht]
    dsimp only
    intro m hm
    rcases List.mem_append.mp hm with hm1 | hm1
    · rcases List.mem_append.mp hm1 with hm2 | hm2
      · split at hm2
        · rcases List.mem_cons.mp hm2 with h' | h'
          · left; rw [h']; rfl
          · rcases List.mem_cons.mp h' with h'' | h''
            · left; rw [h'']; rfl
            · simp at h''
        · simp at hm2
      · split at hm2
        · right; left
          exact enqueue_events _ _ m hm2
        · simp at hm2
    · rcases tryMatchNow_events _ _ _ m hm1 with h' | h'
      · right; right; exact h'
      · right; left; exact h'
  · rw [if_neg ht]
    dsimp only
    intro m hm
    rcases tryMatchNow_events _ _ _ m hm with h' | h'
    · right; right; exact h'
    · right; left; exact h'

/-- **C5.** A `next` arriving less than 1000 ms after the connection's
recorded last-`next` timestamp is answered with the cooldown `error` and
changes nothing (the returned state is the input state, timestamp
included); a `next` at or past the boundary proceeds: it records `now`
as the new timestamp and emits no `error` event. -/
theorem C5_next_cooldown (st : ServerState) (id : String) (now : Nat) :
    (now - lastNextOf st id < 1000 →
       nextH st id now = (st, [errMsg id "Please wait before clicking next again"])) ∧
    (1000 ≤ now - lastNextOf st id →
       lastNextOf (nextH st id now).1 id = now ∧
       ∀ m ∈ (nextH st id now).2, m.event ≠ "error") := by
  constructor
  · intro hlt
    unfold nextH
    rw [if_pos (show now - lastNextOf st id < NEXT_COOLDOWN_MS from hlt)]
  · intro hge
    have hcool : ¬ (now - lastNextOf st id < NEXT_COOLDOWN_MS) := by
      unfold NEXT_COOLDOWN_MS
      omega
    constructor
    · rw [lastNextOf_eq_of_rl (nextH_rl_proceed st id now hcool) id]
      exact lastNextOf_set_self st id now
    · intro m hm
      rcases nextH_events_proceed st id now hcool m hm with h' | h' | h' <;>
        (rw [h']; decide)

/-- Witness for C5: 999 ms after the recorded `next` the cooldown error is
returned with the state untouched; 1001 ms after, the `next` proceeds and
re-records the timestamp. -/
theorem C5_next_cooldown_witness :
    nextH stRL "A" 1099 = (stRL, [errMsg "A" "Please wait before clicking next again"]) ∧
    lastNextOf (nextH stRL "A" 1101).1 "A" = 1101 :=
  ⟨(C5_next_cooldown stRL "A" 1099).1 (by decide),
   ((C5_next_cooldown stRL "A" 1101).2 (by decide)).1⟩

/-! ## C9 — idempotent disconnect cleanup -/
theorem filter_idem {α : Type} (l : List α) (p : α → Bool) :
    (l.filter p).filter p = l.filter p := by
  simp [List.filter_filter]

theorem removeFromQueue_pairs (st : ServerState) (id : String) :
    (removeFromQueue st id).pairs = st.pairs := rfl

/-- `tryMatchNow` leaves the pair entry of any id that is neither the
caller nor registered (so never a popped candidate) untouched. -/
theorem tryMatchNow_pairs_at (S : ServerState) (caller : String) (i : Bool) (x : String)
    (hx1 : x ≠ caller) (hx2 : regHas S.registry x = false) :
    hget (tryMatchNow S caller i).1.pairs x = hget S.pairs x := by
  unfold tryMatchNow
  dsimp only
  obtain ⟨_, hsome⟩ :=
    popValidAux_spec (removeFromQueue S caller).registry caller 50 (removeFromQueue S caller).queue
  rcases hpop : popValidAux (removeFromQueue S caller).registry caller 50
      (removeFromQueue S caller).queue with ⟨r, q'⟩
  rw [hpop] at hsome
  cases r with
  | some c =>
      obtain ⟨hc0, hcreg, hcex, _⟩ := hsome c rfl
      have hcx : c ≠ x := by
        intro he
        rw [he] at hcreg
        have hcreg' : regHas S.registry x = true := hcreg
        rw [hx2] at hcreg'
        exact Bool.noConfusion hcreg'
      show hget (setPaired {removeFromQueue S caller with queue := q'} caller c).pairs x =
        hget S.pairs x
      unfold setPaired
      split
      · rfl
      · rename_i hno
        have hcaller : caller ≠ "" := fun he => hno (Or.inl he)
        have hccaller : caller ≠ c := fun he => (hcex hcaller) he.symm
        dsimp only
        rw [hget_bind2 _ _ _ _ hccaller]
        rw [if_neg (fun he => hcx he.symm), if_neg hx1]
        rfl
  | none =>
      show hget (enqueue {removeFromQueue S caller with queue := q'} caller).1.pairs x =
        hget S.pairs x
      rw [enqueue_pairs]
      rfl

/-- After a disconnect cleanup for an unregistered socket, that socket has
no (truthy) partner, and the queue and rate-limit map carry the trace of
the final removals — so a second cleanup is a no-op. -/
theorem disconnectH_after (st : ServerState) (id : String)
    (hreg : regHas st.registry id = false) :
    truthyS (getPartner (disconnectH st id).1 id) = false ∧
    (∃ q0 : List String, (disconnectH st id).1.queue = q0.filter (fun x => x != id)) ∧
    (∃ r0 : List (String × Nat),
      (disconnectH st id).1.nextRateLimits = r0.filter (fun p => p.1 != id)) := by
  unfold disconnectH
  dsimp only
  by_cases ht : truthyS (getPartner st id) = true
  · rw [if_pos ht]
    have hid : id ≠ "" := by
      intro he
      rw [he] at ht
      simp [getPartner, truthyS] at ht
    have hp0 : ∃ p, getPartner st id = some p ∧ p ≠ "" := by
      cases hgp : getPartner st id with
      | none => rw [hgp] at ht; simp [truthyS] at ht
      | some p =>
          refine ⟨p, rfl, ?_⟩
          intro he
          rw [hgp, he] at ht
          simp [truthyS] at ht
    obtain ⟨p, hgp, hpne⟩ := hp0
    rw [hgp]
    rw [clearPair_tt st id p hid hpne]
    dsimp only
    simp only [getS]
    by_cases hr2 : regHas ({st with pairs := hdel (hdel st.pairs id) p}).registry p = true
    · rw [if_pos hr2]
      dsimp only
      refine ⟨?_, ⟨_, rfl⟩, ⟨_, rfl⟩⟩
      have hpid : p ≠ id := by
        intro he
        rw [he] at hr2
        have hr2' : regHas st.registry id = true := hr2
        rw [hreg] at hr2'
        exact Bool.noConfusion hr2'
      have hEreg : regHas (enqueue {st with pairs := hdel (hdel st.pairs id) p} p).1.registry
          id = false := by
        rw [enqueue_registry]
        exact hreg
      have h1 : hget (tryMatchNow
            (enqueue {st with pairs := hdel (hdel st.pairs id) p} p).1 p false).1.pairs id =
          hget (enqueue {st with pairs := hdel (hdel st.pairs id) p} p).1.pairs id :=
        tryMatchNow_pairs_at _ p false id (fun he => hpid he.symm) hEreg
      unfold getPartner
      rw [if_neg hid]
      dsimp only
      rw [removeFromQueue_pairs, h1, enqueue_pairs]
      show truthyS (hget (hdel (hdel st.pairs id) p) id) = false
      rw [hget_clear2_left]
      rfl
    · rw [if_neg hr2]
      dsimp only
      refine ⟨?_, ⟨_, rfl⟩, ⟨_, rfl⟩⟩
      unfold getPartner
      rw [if_neg hid]
      dsimp only
      show truthyS (hget (hdel (hdel st.pairs id) p) id) = false
      rw [hget_clear2_left]
      rfl
  · rw [if_neg ht]
    dsimp only
    refine ⟨?_, ⟨st.queue, rfl⟩, ⟨st.nextRateLimits, rfl⟩⟩
    cases hb : truthyS (getPartner st id) with
    | false => exact hb
    | true => exact absurd hb ht

/-- **C9.** The disconnect cleanup is idempotent: for any state, and a
socket that is (as at cleanup time) no longer registered, running the
cleanup a second time returns exactly the state the first run produced
and delivers no events at all. -/
theorem C9_disconnect_idempotent (st : ServerState) (id : String)
    (hreg : regHas st.registry id = false) :
    disconnectH (disconnectH st id).1 id = ((disconnectH st id).1, []) := by
  obtain ⟨hf1, ⟨q0, hq0⟩, ⟨r0, hr0⟩⟩ := disconnectH_after st id hreg
  set st1 := (disconnectH st id).1 with hst1
  have hqueue : st1.queue.filter (fun x => x != id) = st1.queue := by
    rw [hq0]
    exact filter_idem _ _
  have hrl : st1.nextRateLimits.filter (fun pr => pr.1 != id) = st1.nextRateLimits := by
    rw [hr0]
    exact filter_idem _ _
  unfold disconnectH
  dsimp only
  rw [if_neg (by simp [hf1])]
  dsimp only
  show (({ queue := st1.queue.filter (fun x => x != id), pairs := st1.pairs,
           reports := st1.reports, bannedIPs := st1.bannedIPs, banDetails := st1.banDetails,
           nextRateLimits := st1.nextRateLimits.filter (fun pr => pr.1 != id),
           registry := st1.registry } : ServerState), ([] : List Msg)) = (st1, [])
  rw [hqueue, hrl]

/-- Witness for C9 at the concrete fixture. -/
theorem C9_disconnect_idempotent_witness :
    disconnectH (disconnectH stW4 "A").1 "A" = ((disconnectH stW4 "A").1, []) :=
  C9_disconnect_idempotent stW4 "A" rfl

/-! ## C10 — report against a vanished peer -/
/-- **C10.** If a client files a syntactically valid report naming its
current partner, but no socket for that partner is registered anywhere at
that moment, the `report` handler returns silently: no report record is
stored, no ban happens, and neither `report-submitted` nor `error` is
delivered. -/
theorem C10_report_vanished_peer (st : ServerState) (id p r : String) (now : Nat)
    (hp : p ≠ "") (hr : r ≠ "") (hrlen : r.length ≤ 500)
    (hpart : getPartner st id = some p) (hregp : regIP st.registry p = none) :
    reportH st id (.str p) (.str r) now = (st, []) := by
  unfold reportH
  simp only [asStr]
  rw [if_neg (not_not_intro ⟨by simp [truthyV, hp], rfl⟩)]
  rw [if_neg (not_not_intro ⟨by simp [truthyV, hr], rfl, hrlen⟩)]
  rw [hpart]
  rw [if_neg (not_not_intro rfl)]
  rw [hregp]

/-- Witness for C10: `A` (paired with `B`) reports `B` just after `B`'s
socket vanished from the registry. -/
theorem C10_report_vanished_peer_witness :
    reportH stW4 "B" (.str "A") (.str "abuse") 7 = (stW4, []) :=
  C10_report_vanished_peer stW4 "B" "A" "abuse" 7 (by decide) (by decide) (by decide) rfl rfl

/-! ## C6 — auto-ban threshold -/
theorem banIP_reports (st : ServerState) (ip reason : String) (now : Nat) :
    (banIP st ip reason now).1.reports = st.reports := by
  unfold banIP
  by_cases hip : ip = ""
  · rw [if_pos hip]
  · rw [if_neg hip]

theorem reportsOf_eq_of_reports {st1 st2 : ServerState}
    (h : st1.reports = st2.reports) (ip : String) : reportsOf st1 ip = reportsOf st2 ip := by
  unfold reportsOf
  rw [h]

theorem reportsOf_setReports_self (st : ServerState) (ip : String) (l : List String) :
    reportsOf (setReports st ip l) ip = l := by
  unfold reportsOf setReports
  dsimp only
  rw [find?_filterset_self]
  rfl

theorem mem_banIP_self (st : ServerState) (ip reason : String) (now : Nat) (hip : ip ≠ "") :
    ip ∈ (banIP st ip reason now).1.bannedIPs := by
  unfold banIP
  rw [if_neg hip]
  dsimp only
  by_cases hc : st.bannedIPs.contains ip = true
  · rw [if_pos hc]
    simpa using hc
  · rw [if_neg hc]
    exact List.mem_append_right _ (List.mem_singleton.mpr rfl)

theorem banIP_bannedIPs_of_ne (st : ServerState) (ip reason : String) (now : Nat) :
    ∀ x, x ∈ (banIP st ip reason now).1.bannedIPs → x ∈ st.bannedIPs ∨ x = ip := by
  unfold banIP
  by_cases hip : ip = ""
  · rw [if_pos hip]
    intro x hx
    exact Or.inl hx
  · rw [if_neg hip]
    dsimp only
    intro x hx
    by_cases hc : st.bannedIPs.contains ip = true
    · rw [if_pos hc] at hx
      exact Or.inl hx
    · rw [if_neg hc] at hx
      rcases List.mem_append.mp hx with hx1 | hx1
      · exact Or.inl hx1
      · exact Or.inr (List.mem_singleton.mp hx1)

/-- **C6.** A valid report against the current partner appends one record
to the partner IP's report list; the IP lands in the ban set exactly when
the list has reached length `AUTO_BAN_THRESHOLD = 5` — one short of the
threshold leaves the IP unbanned. -/
theorem C6_report_autoban (st : ServerState) (id p r ipP : String) (now : Nat)
    (hp : p ≠ "") (hr : r ≠ "") (hrlen : r.length ≤ 500)
    (hpart : getPartner st id = some p) (hregp : regIP st.registry p = some ipP)
    (hipne : ipP ≠ "") (hnb : ipP ∉ st.bannedIPs) :
    reportsOf (reportH st id (.str p) (.str r) now).1 ipP =
      reportsOf st ipP ++ [mkReport p ipP id (getS (regIP st.registry id)) r now] ∧
    (ipP ∈ (reportH st id (.str p) (.str r) now).1.bannedIPs ↔
      5 ≤ (reportsOf st ipP).length + 1) := by
  unfold reportH
  simp only [asStr]
  rw [if_neg (not_not_intro ⟨by simp [truthyV, hp], rfl⟩)]
  rw [if_neg (not_not_intro ⟨by simp [truthyV, hr], rfl, hrlen⟩)]
  rw [hpart]
  rw [if_neg (not_not_intro rfl)]
  rw [hregp]
  dsimp only
  have hlen1 : (reportsOf st ipP ++
      [mkReport p ipP id (getS (regIP st.registry id)) r now]).length =
      (reportsOf st ipP).length + 1 := by
    rw [List.length_append]
    rfl
  by_cases hth : AUTO_BAN_THRESHOLD ≤ (reportsOf st ipP ++
      [mkReport p ipP id (getS (regIP st.registry id)) r now]).length
  · rw [if_pos hth]
    constructor
    · rw [reportsOf_eq_of_reports (banIP_reports _ _ _ _) ipP]
      exact reportsOf_setReports_self st ipP _
    · constructor
      · intro _
        rw [← hlen1]
        exact hth
      · intro _
        exact mem_banIP_self _ ipP _ now hipne
  · rw [if_neg hth]
    constructor
    · exact reportsOf_setReports_self st ipP _
    · constructor
      · intro hm
        exact absurd hm hnb
      · intro hge
        rw [← hlen1] at hge
        exact absurd hge hth

/-- Witness for C6: the fourth report does not ban `ipB`; the fifth does. -/
theorem C6_report_autoban_witness :
    ¬ ("ipB" ∈ (reportH stR3 "A" (.str "B") (.str "bad") 1).1.bannedIPs) ∧
    "ipB" ∈ (reportH stR4 "A" (.str "B") (.str "bad") 1).1.bannedIPs := by
  constructor
  · intro hmem
    have h4 := (C6_report_autoban stR3 "A" "B" "bad" "ipB" 1 (by decide) (by decide)
      (by decide) rfl rfl (by decide) (by decide)).2.mp hmem
    revert h4
    decide
  · exact (C6_report_autoban stR4 "A" "B" "bad" "ipB" 1 (by decide) (by decide)
      (by decide) rfl rfl (by decide) (by decide)).2.mpr (by decide)

/-! ## C3 — signal relay validation and delivery -/
/-- Counterexample for C3 as stated: at a concrete paired state and a
fully valid signal, the relayed payload carries the sender under the key
`peerId`, so the claimed delivery of `{peer: C, signal}` never happens. -/
theorem C3_signal_payload_counterexample :
    signalH stW3 "A" (.obj [("peerId", .str "B"), ("signal", .obj [("sdp", .str "v=0")])]) ≠
      [⟨"B", "signal",
        some (.obj [("peer", .str "A"), ("signal", .obj [("sdp", .str "v=0")])])⟩] := by
  intro hcontra
  have h1 : signalH stW3 "A"
      (.obj [("peerId", .str "B"), ("signal", .obj [("sdp", .str "v=0")])]) =
      [⟨"B", "signal",
        some (.obj [("peerId", .str "A"), ("signal", .obj [("sdp", .str "v=0")])])⟩] := rfl
  rw [h1] at hcontra
  simp at hcontra

/-- **C3 (amended).** For an input `{peerId: C', signal}` from `C`, the
relay delivers `{peerId: C, signal}` to `C'` precisely when `C'` is a
non-empty string, `signal` is a non-null object whose serialization is at
most 50000 characters (`>` drops), and `partner(C) = C'` at check time;
in every other case nothing is delivered.  The handler performs no store
writes in either case (its embedding returns only the delivery list). -/
theorem C3_signal_relay_amended (st : ServerState) (id : String) (pv sv : JSVal) :
    (∀ ps fl, pv = .str ps → ps ≠ "" → sv = .obj fl →
       (stringify sv).length ≤ 50000 → getPartner st id = some ps →
       signalH st id (.obj [("peerId", pv), ("signal", sv)]) =
         [⟨ps, "signal", some (.obj [("peerId", .str id), ("signal", sv)])⟩]) ∧
    ((¬ ∃ ps fl, pv = .str ps ∧ ps ≠ "" ∧ sv = .obj fl ∧
       (stringify sv).length ≤ 50000 ∧ getPartner st id = some ps) →
       signalH st id (.obj [("peerId", pv), ("signal", sv)]) = []) := by
  have hf1 : getField (.obj [("peerId", pv), ("signal", sv)]) "peerId" = pv := by
    simp [getField]
  have hf2 : getField (.obj [("peerId", pv), ("signal", sv)]) "signal" = sv := by
    simp [getField]
  constructor
  · intro ps fl hpv hps hsv hlen hpart
    subst hpv
    subst hsv
    unfold signalH
    rw [if_neg (not_not_intro ⟨rfl, rfl⟩)]
    dsimp only
    rw [hf1, hf2]
    rw [if_neg (not_not_intro ⟨by simp [truthyV, hps], rfl⟩)]
    rw [if_neg (not_not_intro ⟨rfl, rfl⟩)]
    rw [if_neg (by omega)]
    rw [hpart]
    simp only [asStr]
    rw [if_pos trivial]
  · intro hne
    unfold signalH
    rw [if_neg (not_not_intro ⟨rfl, rfl⟩)]
    dsimp only
    rw [hf1, hf2]
    by_cases hstr : ∃ ps, pv = JSVal.str ps ∧ ps ≠ ""
    · obtain ⟨ps, hpv, hps⟩ := hstr
      subst hpv
      rw [if_neg (not_not_intro ⟨by simp [truthyV, hps], rfl⟩)]
      by_cases hobj : ∃ fl, sv = JSVal.obj fl
      · obtain ⟨fl, hsv⟩ := hobj
        subst hsv
        rw [if_neg (not_not_intro ⟨rfl, rfl⟩)]
        by_cases hlen : (stringify (JSVal.obj fl)).length ≤ 50000
        · rw [if_neg (by omega)]
          cases hgp : getPartner st id with
          | none => rfl
          | some q =>
              simp only [asStr]
              rw [if_neg ?_]
              intro hq
              exact hne ⟨ps, fl, rfl, hps, rfl, hlen, by rw [hgp, hq]⟩
        · rw [if_pos (by omega)]
      · rw [if_pos ?_]
        intro hco
        rcases hco with ⟨h1, h2⟩
        cases sv with
        | jsnull => exact absurd h1 (by simp [truthyV])
        | obj fl => exact hobj ⟨fl, rfl⟩
        | undefined => exact absurd h2 (by simp [isObjTypeV])
        | str s => exact absurd h2 (by simp [isObjTypeV])
        | num n => exact absurd h2 (by simp [isObjTypeV])
        | boolean b => exact absurd h2 (by simp [isObjTypeV])
    · rw [if_pos ?_]
      intro hco
      rcases hco with ⟨h1, h2⟩
      cases pv with
      | str s =>
          refine hstr ⟨s, rfl, ?_⟩
          simpa [truthyV] using h1
      | undefined => exact absurd h2 (by simp [isStrV])
      | jsnull => exact absurd h2 (by simp [isStrV])
      | num n => exact absurd h2 (by simp [isStrV])
      | boolean b => exact absurd h2 (by simp [isStrV])
      | obj fl => exact absurd h2 (by simp [isStrV])

/-- Witness for C3 (amended): both directions at concrete inputs — a valid
signal from `A` to its partner `B` is relayed with the sender under
`peerId`, and the same signal aimed at the non-partner `Z` is dropped. -/
theorem C3_signal_relay_amended_witness :
    signalH stW3 "A" (.obj [("peerId", .str "B"), ("signal", .obj [("sdp", .str "v=0")])]) =
      [⟨"B", "signal",
        some (.obj [("peerId", .str "A"), ("signal", .obj [("sdp", .str "v=0")])])⟩] ∧
    signalH stW3 "A" (.obj [("peerId", .str "Z"), ("signal", .obj [("sdp", .str "v=0")])]) =
      [] := by
  constructor
  · exact (C3_signal_relay_amended stW3 "A" (.str "B") (.obj [("sdp", .str "v=0")])).1
      "B" [("sdp", .str "v=0")] rfl (by decide) rfl (by decide) rfl
  · refine (C3_signal_relay_amended stW3 "A" (.str "Z") (.obj [("sdp", .str "v=0")])).2 ?_
    rintro ⟨ps, fl, hpv, -, -, -, hpart⟩
    have hps : ps = "Z" := (JSVal.str.inj hpv).symm
    rw [hps] at hpart
    have hB : getPartner stW3 "A" = some "B" := rfl
    rw [hB] at hpart
    exact absurd (Option.some.inj hpart) (by decide)

theorem bind_run {α β : Type} (x : FM α) (f : α → FM β) (s : FS) :
    (x >>= f) s = match x s with
      | (some a, s1) => f a s1
      | (none, s1) => (none, s1) := rfl

theorem outsOK_pure (P : Msg → Prop) {α : Type} (a : α) : OutsOK P (pure a : FM α) :=
  fun _ _ hm => Or.inl hm

theorem outsOK_sss (P : Msg → Prop) {α : Type} (f : ServerState → ServerState × α) :
    OutsOK P (sss f) := by
  intro s m hm
  left
  rcases s with ⟨st, out, faults⟩
  cases faults with
  | nil => exact hm
  | cons b rest => cases b <;> simpa [sss] using hm

theorem outsOK_localOp (P : Msg → Prop) {α : Type} (f : ServerState → ServerState × α) :
    OutsOK P (localOp f) :=
  fun _ _ hm => Or.inl hm

theorem outsOK_emitF (P : Msg → Prop) (m : Msg) (h : P m) : OutsOK P (emitF m) := by
  intro s x hx
  have hx' : x ∈ s.out ++ [m] := hx
  rcases List.mem_append.mp hx' with h1 | h1
  · exact Or.inl h1
  · exact Or.inr (List.mem_singleton.mp h1 ▸ h)

theorem outsOK_bind (P : Msg → Prop) {α β : Type} (x : FM α) (f : α → FM β)
    (hx : OutsOK P x) (hf : ∀ a, OutsOK P (f a)) : OutsOK P (x >>= f) := by
  intro s m hm
  rw [bind_run] at hm
  rcases hxs : x s with ⟨r, s1⟩
  rw [hxs] at hm
  cases r with
  | none => exact hx s m (by rw [hxs]; exact hm)
  | some a =>
      rcases hf a s1 m hm with h1 | h1
      · exact hx s m (by rw [hxs]; exact h1)
      · exact Or.inr h1

theorem outsOK_ite (P : Msg → Prop) (c : Prop) [Decidable c] {α : Type} (x y : FM α)
    (hx : OutsOK P x) (hy : OutsOK P y) : OutsOK P (if c then x else y) := by
  by_cases h : c
  · rw [if_pos h]; exact hx
  · rw [if_neg h]; exact hy

theorem outsOK_catch (P : Msg → Prop) (x : FM Unit) (h : OutsOK P x) :
    OutsOK P (fmCatch x) := by
  intro s m hm
  apply h s m
  unfold fmCatch at hm
  rcases hxs : x s with ⟨r, s1⟩
  rw [hxs] at hm
  cases r with
  | none => exact hm
  | some a => exact hm

theorem abortOuts_emitF (P : Msg → Prop) (m : Msg) : AbortOuts P (emitF m) := by
  intro s hnone
  exact absurd hnone (by simp [emitF])

theorem abortOuts_bind (P : Msg → Prop) {α β : Type} (x : FM α) (f : α → FM β)
    (hxo : OutsOK P x) (hfa : ∀ a, AbortOuts P (f a)) : AbortOuts P (x >>= f) := by
  intro s hnone m hm
  rw [bind_run] at hnone hm
  rcases hxs : x s with ⟨r, s1⟩
  rw [hxs] at hnone hm
  cases r with
  | none => exact hxo s m (by rw [hxs]; exact hm)
  | some a =>
      rcases hfa a s1 hnone m hm with h1 | h1
      · exact hxo s m (by rw [hxs]; exact h1)
      · exact Or.inr h1

theorem outsOK_getPartnerF (P : Msg → Prop) (id : String) : OutsOK P (getPartnerF id) := by
  unfold getPartnerF
  exact outsOK_ite P _ _ _ (outsOK_pure P _) (outsOK_sss P _)

theorem outsOK_removeFromQueueF (P : Msg → Prop) (id : String) :
    OutsOK P (removeFromQueueF id) := by
  unfold removeFromQueueF
  exact outsOK_catch P _ (outsOK_bind P _ _ (outsOK_sss P _) (fun _ => outsOK_pure P _))

theorem outsOK_clearPairF (P : Msg → Prop) (a0 b0 : Option String) :
    OutsOK P (clearPairF a0 b0) := by
  unfold clearPairF
  apply outsOK_ite
  · exact outsOK_pure P _
  · apply outsOK_bind
    · exact outsOK_ite P _ _ _ (outsOK_getPartnerF P _) (outsOK_pure P _)
    · intro b1
      apply outsOK_bind
      · exact outsOK_ite P _ _ _ (outsOK_getPartnerF P _) (outsOK_pure P _)
      · intro a1
        apply outsOK_bind
        · exact outsOK_ite P _ _ _ (outsOK_sss P _) (outsOK_pure P _)
        · intro _
          apply outsOK_bind
          · exact outsOK_ite P _ _ _ (outsOK_sss P _) (outsOK_pure P _)
          · intro _
            exact outsOK_pure P _

theorem outsOK_notifyPdF (P : Msg → Prop) (hP : ∀ x, P (pdiscMsg x)) (o : Option String) :
    OutsOK P (notifyPdF o) := by
  unfold notifyPdF
  exact outsOK_ite P _ _ _ (outsOK_emitF P _ (hP _)) (outsOK_pure P _)

theorem outsOK_enqueueF (P : Msg → Prop) (hP : ∀ x, P (waitingMsg x)) (id : String) :
    OutsOK P (enqueueF id) := by
  unfold enqueueF
  apply outsOK_ite
  · exact outsOK_pure P _
  · apply outsOK_catch
    apply outsOK_bind
    · exact outsOK_sss P _
    · intro _
      apply outsOK_bind
      · exact outsOK_sss P _
      · intro _
        exact outsOK_emitF P _ (hP _)

theorem abortOuts_leaveF (id : String) : AbortOuts PdW (leaveF id) := by
  unfold leaveF
  apply abortOuts_bind
  · exact outsOK_getPartnerF _ _
  · intro partnerId
    apply abortOuts_bind
    · apply outsOK_ite
      · apply outsOK_bind
        · exact outsOK_clearPairF _ _ _
        · intro ab
          apply outsOK_bind
          · apply outsOK_ite
            · apply outsOK_bind
              · exact outsOK_notifyPdF _ (fun _ => Or.inl rfl) _
              · intro _
                exact outsOK_notifyPdF _ (fun _ => Or.inl rfl) _
            · exact outsOK_pure _ _
          · intro _
            apply outsOK_bind
            · exact outsOK_sss _ _
            · intro pres
              apply outsOK_ite
              · exact outsOK_enqueueF _ (fun _ => Or.inr rfl) _
              · exact outsOK_pure _ _
      · exact outsOK_pure _ _
    · intro _
      apply abortOuts_bind
      · exact outsOK_removeFromQueueF _ _
      · intro _
        exact abortOuts_emitF _ _

/-- **C4 (amended).** When a store error aborts a `join`, `next` or
`report`, the top-level `catch` delivers an `error` event to the
initiating client; a `leave` aborted by a store error, however, emits no
`error` at all — its `catch` only logs, so a failed `leave` is silent
(nothing beyond the `partner-disconnected`/`waiting` already sent). -/
theorem C4_sss_failure_surfacing :
    (∀ (st : ServerState) (faults : List Bool) (id : String),
       (joinF id ⟨st, [], faults⟩).1 = none →
       errMsg id "Failed to join queue" ∈ (runJoin st faults id).2) ∧
    (∀ (st : ServerState) (faults : List Bool) (id : String) (now : Nat),
       (nextF id now ⟨st, [], faults⟩).1 = none →
       errMsg id "Failed to go next" ∈ (runNext st faults id now).2) ∧
    (∀ (st : ServerState) (faults : List Bool) (id : String) (pv rv : JSVal) (now : Nat),
       (reportF id pv rv now ⟨st, [], faults⟩).1 = none →
       errMsg id "Failed to submit report" ∈ (runReport st faults id pv rv now).2) ∧
    (∀ (st : ServerState) (faults : List Bool) (id : String),
       (leaveF id ⟨st, [], faults⟩).1 = none →
       ∀ m ∈ (runLeave st faults id).2, m.event ≠ "error") := by
  refine ⟨?_, ?_, ?_, ?_⟩
  · intro st faults id h
    unfold runJoin
    rcases hj : joinF id ⟨st, [], faults⟩ with ⟨r, s⟩
    rw [hj] at h
    cases r with
    | some a => exact absurd h (by simp)
    | none => exact List.mem_append_right _ (List.mem_singleton.mpr rfl)
  · intro st faults id now h
    unfold runNext
    rcases hj : nextF id now ⟨st, [], faults⟩ with ⟨r, s⟩
    rw [hj] at h
    cases r with
    | some a => exact absurd h (by simp)
    | none => exact List.mem_append_right _ (List.mem_singleton.mpr rfl)
  · intro st faults id pv rv now h
    unfold runReport
    rcases hj : reportF id pv rv now ⟨st, [], faults⟩ with ⟨r, s⟩
    rw [hj] at h
    cases r with
    | some a => exact absurd h (by simp)
    | none => exact List.mem_append_right _ (List.mem_singleton.mpr rfl)
  · intro st faults id h m hm
    unfold runLeave at hm
    rcases hl : leaveF id ⟨st, [], faults⟩ with ⟨r, s⟩
    rw [hl] at hm h
    cases r with
    | some a => exact absurd h (by simp)
    | none =>
        have ha := abortOuts_leaveF id ⟨st, [], faults⟩ (by rw [hl]) m (by rw [hl]; exact hm)
        rcases ha with h1 | h1
        · simp at h1
        · rcases h1 with h1 | h1 <;> (rw [h1]; decide)

/-- Counterexample for C4 as stated: the very first store operation of a
`leave` rejects; the operation aborts, yet the client receives no `error`
(indeed no event at all) — the failure is silent. -/
theorem C4_leave_silent_failure_counterexample :
    (leaveF "A" ⟨stW3, [], [true]⟩).1 = none ∧
    runLeave stW3 [true] "A" = (stW3, []) :=
  ⟨rfl, rfl⟩

/-- Witness for C4 (amended): a `join` aborted by its first store
operation does deliver the error event. -/
theorem C4_sss_failure_surfacing_witness :
    errMsg "A" "Failed to join queue" ∈ (runJoin stW3 [true] "A").2 :=
  C4_sss_failure_surfacing.1 stW3 [true] "A" rfl

end RVChat

